import Mathlib

set_option maxRecDepth 16000

/-!
Verification of the middle stage of the y2llow/Compilers front end:
the AST node model (src/parser/ast_nodes.py), the constant-folding and
constant-propagation engine (src/parser/constant_folder.py), and the
Graphviz dot exporter (src/parser/dot_visitor.py).

The embedding is shallow: each Python class of ast_nodes.py becomes one
constructor of the inductive type ASTNode below; the mutable visitor
state of ConstantFolder (the field named "known", a dict from variable
name to literal node) becomes an explicitly threaded association list;
Python exceptions (ZeroDivisionError from evaluating a division or
modulo with a zero divisor, ValueError from an unknown operator or a
negative shift count) become the error branch of Except.  Python
integers are arbitrary precision, so literal values are Int.  The value
of a float literal is never computed with by this stage (the folder only
stores and compares float literals); it is modelled as a rational
number, which keeps equality decidable.

The Python lists and optional fields inside node classes are represented
by the dedicated mutual inductives StmtList and OptNode rather than by
List and Option, so that all recursion over trees is structural and
every definition evaluates by kernel reduction on concrete inputs.
-/

mutual

/-- The closed AST node variant set of src/parser/ast_nodes.py, one
constructor per Python class, with the original class and attribute
names.  The attribute called "prefix" on increment and decrement nodes
is rendered "pre" here because prefix is a reserved word in Lean. -/
inductive ASTNode where
  | ProgramNode (main_function : ASTNode)
  | MainFunctionNode (statements : StmtList)
  | VarDeclNode (is_const : Bool) (type_name : String) (pointer_depth : Nat)
      (name : String) (value : OptNode)
  | AssignNode (target : ASTNode) (value : ASTNode)
  | IntLiteralNode (value : Int)
  | FloatLiteralNode (value : Rat)
  | CharLiteralNode (value : String)
  | IdentifierNode (name : String)
  | UnaryOpNode (op : String) (operand : ASTNode)
  | BinaryOpNode (op : String) (left : ASTNode) (right : ASTNode)
  | DereferenceNode (operand : ASTNode)
  | AddressOfNode (operand : ASTNode)
  | IncrementNode (operand : ASTNode) (pre : Bool)
  | DecrementNode (operand : ASTNode) (pre : Bool)
  | CastNode (type_name : String) (pointer_depth : Nat) (operand : ASTNode)
deriving DecidableEq

/-- The optional initializer slot of VarDeclNode (Python: a node or None). -/
inductive OptNode where
  | none
  | some (node : ASTNode)
deriving DecidableEq

/-- The statement list owned by MainFunctionNode (Python: a list of nodes). -/
inductive StmtList where
  | nil
  | cons (hd : ASTNode) (tl : StmtList)
deriving DecidableEq

end

/-- The literal test used throughout constant_folder.py:
isinstance(node, (IntLiteralNode, FloatLiteralNode, CharLiteralNode)). -/
def isLiteralNode : ASTNode → Bool
  | .IntLiteralNode _ => true
  | .FloatLiteralNode _ => true
  | .CharLiteralNode _ => true
  | _ => false

/-- isinstance(node, IdentifierNode). -/
def isIdentifierNode : ASTNode → Bool
  | .IdentifierNode _ => true
  | _ => false

/-- The exceptions the folding pass can raise: ZeroDivisionError from
evaluating left / right or left % right with right = 0, OverflowError
from a true-division quotient whose rounded binary64 value would need
an exponent past the float range, and ValueError from an unknown
operator symbol or a negative shift count. -/
inductive FoldError where
  | zeroDivisionError
  | overflowError
  | valueError (msg : String)
deriving DecidableEq

/-- The known-value environment: the ConstantFolder dict mapping a
variable name to the literal node currently known for it, modelled as an
association list searched front to back. -/
abbrev Env := List (String × ASTNode)

/-- Python: name in dict / dict[name] combined, front binding wins. -/
def envLookup : Env → String → Option ASTNode
  | [], _ => Option.none
  | (k, v) :: rest, name => if k = name then Option.some v else envLookup rest name

/-- Python: dict.pop(name, None) — drop every binding for the name. -/
def envErase (e : Env) (name : String) : Env :=
  e.filter (fun p => p.1 != name)

/-- Python: dict[name] = v — the new binding shadows any previous one. -/
def envInsert (e : Env) (name : String) (v : ASTNode) : Env :=
  (name, v) :: envErase e name

/-- ConstantFolder.eval_unary (constant_folder.py lines 161 to 167).
Python int(not val) is 1 exactly when val = 0; the complement operator
on a Python int satisfies the identity that it maps val to -(val + 1). -/
def ConstantFolder.eval_unary (op : String) (val : Int) : Except FoldError Int :=
  if op = "+" then .ok val
  else if op = "-" then .ok (-val)
  else if op = "!" then .ok (if val = 0 then 1 else 0)
  else if op = "~" then .ok (-(val + 1))
  else .error (.valueError ("Unknown unary operator: " ++ op))

/-- Helper for the division model: 2 ^ k, computed in chunks of 64 bits
so that kernel reduction stays shallow on exponents in the hundreds. -/
def pow2 (k : Nat) : Nat := (2 ^ 64) ^ (k / 64) * 2 ^ (k % 64)

/-- Bit length of a natural number below 2 ^ fuel: the position of the
highest set bit plus one, and 0 for 0. -/
def bitLenSmall : Nat → Nat → Nat
  | 0, _ => 0
  | fuel + 1, n => if n = 0 then 0 else bitLenSmall fuel (n / 2) + 1

/-- Bit length with the input consumed 64 bits per step, so that kernel
reduction stays shallow on the thousand-bit inputs overflow needs. -/
def bitLenAux : Nat → Nat → Nat
  | 0, _ => 0
  | fuel + 1, n => if n < 2 ^ 64 then bitLenSmall 64 n else bitLenAux fuel (n / 2 ^ 64) + 64

/-- Bit length of a natural number, as Python int.bit_length(): the
least b with n below 2 ^ b. -/
def bitLen (n : Nat) : Nat := bitLenAux n n

/-- Decides whether 2 ^ c is at most n / d as rationals, for a signed
exponent c, by cross-multiplying with the appropriate power of two. -/
def pow2le (d n : Nat) (c : Int) : Bool :=
  if 0 ≤ c then decide (d * pow2 c.toNat ≤ n) else decide (d ≤ n * pow2 (-c).toNat)

/-- The binary exponent of the positive fraction n / d: the unique e
with 2 ^ e at most n / d, and n / d below 2 ^ (e + 1).  The bit-length
difference is e or e + 1; the comparison picks the right one. -/
def ratExp2 (n d : Nat) : Int :=
  let c : Int := (bitLen n : Int) - (bitLen d : Int)
  if pow2le d n c then c else c - 1

/-- Rounds the fraction N / d to the nearest natural number, ties to
even: the rounding of IEEE-754 binary64 arithmetic. -/
def rneNat (N d : Nat) : Nat :=
  let fl := N / d
  let rem := N % d
  if 2 * rem < d then fl
  else if d < 2 * rem then fl + 1
  else if fl % 2 = 0 then fl else fl + 1

/-- Python n / d on positive ints followed by int() truncation, the
magnitude part of int(left / right) in the source.  CPython
long_true_divide returns the binary64 float nearest the exact quotient:
with e the binary exponent of n / d, the quotient is rounded (nearest,
ties to even) to a multiple of the quantum 2 ^ t where
t = max(e - 52, -1074) — 53 significant bits, clamped at the subnormal
limit — and OverflowError is raised when the rounded magnitude reaches
2 ^ 1024.  int() then truncates the float toward zero, which on the
magnitude is floor division by the quantum.  Both branches below state
this with the quantum scaled to integer arithmetic: for t at most 0 the
scaled numerator is n * 2 ^ (-t), for positive t the denominator is
d * 2 ^ t. -/
def pyDivFloat (n d : Nat) : Except FoldError Nat :=
  let e : Int := ratExp2 n d
  let t : Int := max (e - 52) (-1074)
  if t ≤ 0 then
    let m := rneNat (n * pow2 (-t).toNat) d
    if pow2 (1024 + (-t).toNat) ≤ m then .error .overflowError
    else .ok (m / pow2 (-t).toNat)
  else
    let m := rneNat n (d * pow2 t.toNat)
    if pow2 1024 ≤ m * pow2 t.toNat then .error .overflowError
    else .ok (m * pow2 t.toNat)

/-- Python int(left / right) for right nonzero: the float quotient is
computed on the magnitudes (the sign of an exact float quotient is the
usual sign rule, and truncation toward zero commutes with negation),
so the result is the signed rounded-then-truncated magnitude, or the
OverflowError the float conversion raises. -/
def pyTrueDivInt (l r : Int) : Except FoldError Int :=
  if l = 0 then .ok 0
  else
    match pyDivFloat l.natAbs r.natAbs with
    | .error e => .error e
    | .ok m => .ok (if (l < 0) = (r < 0) then (m : Int) else -(m : Int))

/-- ConstantFolder.eval_binary (constant_folder.py lines 169 to 189).
The division case in the source is int(left / right): Python true
division of two ints produces a binary64 float — pyTrueDivInt models
the rounding to 53 significant bits and the OverflowError past the
float range — and int() truncates that float toward zero; a zero
divisor raises ZeroDivisionError.  The modulo case is the Python % on
ints, whose result takes the sign of the divisor, hence Int.fmod; it
also raises on a zero divisor.  The comparison and logical forms
produce 0 or 1 as ints.  The shifts raise ValueError on a negative
shift count; a right shift of a Python int is an arithmetic (floor)
shift, which is Int.shiftRight. -/
def ConstantFolder.eval_binary (op : String) (left right : Int) : Except FoldError Int :=
  if op = "+" then .ok (left + right)
  else if op = "-" then .ok (left - right)
  else if op = "*" then .ok (left * right)
  else if op = "/" then
    if right = 0 then .error .zeroDivisionError else pyTrueDivInt left right
  else if op = "%" then
    if right = 0 then .error .zeroDivisionError else .ok (Int.fmod left right)
  else if op = "==" then .ok (if left = right then 1 else 0)
  else if op = "!=" then .ok (if left = right then 0 else 1)
  else if op = "<" then .ok (if left < right then 1 else 0)
  else if op = ">" then .ok (if right < left then 1 else 0)
  else if op = "<=" then .ok (if left ≤ right then 1 else 0)
  else if op = ">=" then .ok (if right ≤ left then 1 else 0)
  else if op = "&&" then .ok (if left ≠ 0 ∧ right ≠ 0 then 1 else 0)
  else if op = "||" then .ok (if left ≠ 0 ∨ right ≠ 0 then 1 else 0)
  else if op = "&" then .ok (Int.land left right)
  else if op = "|" then .ok (Int.lor left right)
  else if op = "^" then .ok (Int.xor left right)
  else if op = "<<" then
    if right < 0 then .error (.valueError "negative shift count")
    else .ok (left * 2 ^ right.toNat)
  else if op = ">>" then
    if right < 0 then .error (.valueError "negative shift count")
    else .ok (Int.shiftRight left right.toNat)
  else .error (.valueError ("Unknown binary operator: " ++ op))

mutual

/-- ConstantFolder.visit: the dispatcher (lines 48 to 54) inlined with
every visit method of constant_folder.py; one match arm per method,
in source order.  The enabled test at the top is line 49 to 50 (the
folder is an identity transform when disabled).  The literal node
classes have no visit method in the source and fall through to
generic_visit, returning the node unchanged, as does the base-class
fallback.  The environment is the mutable dict of known values,
threaded explicitly; a visit result is the returned (possibly replaced)
node together with the environment after the call, or the exception the
call raised. -/
def ConstantFolder.visit (enabled : Bool) (node : ASTNode) (known : Env) :
    Except FoldError (ASTNode × Env) :=
  if !enabled then .ok (node, known)
  else
    match node with
    | .ProgramNode mf =>
      match ConstantFolder.visit enabled mf known with
      | .error e => .error e
      | .ok (mf2, known2) => .ok (.ProgramNode mf2, known2)
    | .MainFunctionNode stmts =>
      match ConstantFolder.visitStatements enabled stmts known with
      | .error e => .error e
      | .ok (stmts2, known2) => .ok (.MainFunctionNode stmts2, known2)
    | .VarDeclNode c ty pd name v =>
      match v with
      | .some init =>
        match ConstantFolder.visit enabled init known with
        | .error e => .error e
        | .ok (init2, known2) =>
          if isLiteralNode init2 then
            .ok (.VarDeclNode c ty pd name (.some init2), envInsert known2 name init2)
          else
            .ok (.VarDeclNode c ty pd name (.some init2), envErase known2 name)
      | .none => .ok (.VarDeclNode c ty pd name .none, envErase known name)
    | .AssignNode target value =>
      match ConstantFolder.visit enabled value known with
      | .error e => .error e
      | .ok (value2, known2) =>
        match target with
        | .IdentifierNode name =>
          if isLiteralNode value2 then
            .ok (.AssignNode target value2, envInsert known2 name value2)
          else
            .ok (.AssignNode target value2, envErase known2 name)
        | _ => .ok (.AssignNode target value2, known2)
    | .IdentifierNode name =>
      match envLookup known name with
      | Option.some lit => .ok (lit, known)
      | Option.none => .ok (.IdentifierNode name, known)
    | .UnaryOpNode op operand =>
      match ConstantFolder.visit enabled operand known with
      | .error e => .error e
      | .ok (operand2, known2) =>
        match operand2 with
        | .IntLiteralNode v =>
          match ConstantFolder.eval_unary op v with
          | .error e => .error e
          | .ok r => .ok (.IntLiteralNode r, known2)
        | _ => .ok (.UnaryOpNode op operand2, known2)
    | .BinaryOpNode op l r =>
      match ConstantFolder.visit enabled l known with
      | .error e => .error e
      | .ok (l2, known2) =>
        match ConstantFolder.visit enabled r known2 with
        | .error e => .error e
        | .ok (r2, known3) =>
          match l2, r2 with
          | .IntLiteralNode a, .IntLiteralNode b =>
            match ConstantFolder.eval_binary op a b with
            | .error e => .error e
            | .ok res => .ok (.IntLiteralNode res, known3)
          | _, _ => .ok (.BinaryOpNode op l2 r2, known3)
    | .DereferenceNode operand =>
      match ConstantFolder.visit enabled operand known with
      | .error e => .error e
      | .ok (operand2, known2) => .ok (.DereferenceNode operand2, known2)
    | .AddressOfNode operand =>
      match ConstantFolder.visit enabled operand known with
      | .error e => .error e
      | .ok (operand2, known2) => .ok (.AddressOfNode operand2, known2)
    | .IncrementNode operand p =>
      match ConstantFolder.visit enabled operand known with
      | .error e => .error e
      | .ok (operand2, known2) =>
        match operand2 with
        | .IdentifierNode name => .ok (.IncrementNode operand2 p, envErase known2 name)
        | _ => .ok (.IncrementNode operand2 p, known2)
    | .DecrementNode operand p =>
      match ConstantFolder.visit enabled operand known with
      | .error e => .error e
      | .ok (operand2, known2) =>
        match operand2 with
        | .IdentifierNode name => .ok (.DecrementNode operand2 p, envErase known2 name)
        | _ => .ok (.DecrementNode operand2 p, known2)
    | .CastNode ty pd operand =>
      match ConstantFolder.visit enabled operand known with
      | .error e => .error e
      | .ok (operand2, known2) => .ok (.CastNode ty pd operand2, known2)
    | .IntLiteralNode v => .ok (.IntLiteralNode v, known)
    | .FloatLiteralNode v => .ok (.FloatLiteralNode v, known)
    | .CharLiteralNode v => .ok (.CharLiteralNode v, known)

/-- The statement loop of visit_MainFunctionNode (line 67): each
statement is visited in program order and the environment left by one
statement is the environment seen by the next. -/
def ConstantFolder.visitStatements (enabled : Bool) (stmts : StmtList) (known : Env) :
    Except FoldError (StmtList × Env) :=
  match stmts with
  | .nil => .ok (.nil, known)
  | .cons s rest =>
    match ConstantFolder.visit enabled s known with
    | .error e => .error e
    | .ok (s2, known2) =>
      match ConstantFolder.visitStatements enabled rest known2 with
      | .error e => .error e
      | .ok (rest2, known3) => .ok (.cons s2 rest2, known3)

end

deriving instance DecidableEq for Except

/-- One whole folding pass as invoked by src/main/__main__.py:
ConstantFolder(enabled).visit(ast) — a fresh folder instance whose known
dict starts empty. -/
def ConstantFolder.run (enabled : Bool) (ast : ASTNode) : Except FoldError ASTNode :=
  match ConstantFolder.visit enabled ast [] with
  | .error e => .error e
  | .ok (ast2, _) => .ok ast2





/-- The visitor state of DotVisitor (dot_visitor.py lines 39 to 41): the
accumulated output lines and the counter behind the fresh node ids. -/
structure DotVisitor where
  lines : List String
  counter : Nat
deriving DecidableEq

/-- DotVisitor.new_id (lines 43 to 46): bump the counter, return the id. -/
def DotVisitor.new_id (s : DotVisitor) : String × DotVisitor :=
  ("node" ++ toString (s.counter + 1), { s with counter := s.counter + 1 })

/-- The single-quote character, used around char-literal labels. -/
def squote : String := String.mk [Char.ofNat 39]

/-- Python str.replace specialised to the single-character patterns the
exporter uses (the replacement of a one-character pattern rewrites each
matching character independently, left to right). -/
def pyReplaceChar (pat : Char) (rep : List Char) : List Char → List Char
  | [] => []
  | c :: rest => (if c = pat then rep else [c]) ++ pyReplaceChar pat rep rest

/-- The label escaping of DotVisitor.add_node (line 49): first each
double quote becomes backslash-quote, then each backslash is doubled —
in that order, exactly as in the source, so the escaping of the first
step is itself re-escaped by the second. -/
def escapeLabel (label : String) : String :=
  let step1 := pyReplaceChar (Char.ofNat 34) [Char.ofNat 92, Char.ofNat 34] label.data
  String.mk (pyReplaceChar (Char.ofNat 92) [Char.ofNat 92, Char.ofNat 92] step1)

/-- DotVisitor.add_node (lines 48 to 50): escape the label text and
append one node-declaration line. -/
def DotVisitor.add_node (s : DotVisitor) (nodeId label shape : String) : DotVisitor :=
  let label := escapeLabel label
  { s with lines := s.lines ++
      ["    " ++ nodeId ++ " [label=\"" ++ label ++ "\", shape=" ++ shape ++ "];"] }

/-- DotVisitor.add_edge (lines 52 to 53): append one edge line. -/
def DotVisitor.add_edge (s : DotVisitor) (parentId childId : String) : DotVisitor :=
  { s with lines := s.lines ++ ["    " ++ parentId ++ " -> " ++ childId ++ ";"] }

/-- The pointer-star string of dot_visitor.py, a star repeated
pointer_depth times. -/
def stars (pd : Nat) : String := String.mk (List.replicate pd (Char.ofNat 42))

mutual

/-- The internal dispatcher DotVisitor._visit (lines 72 to 76) inlined
with every node-kind method of dot_visitor.py, one arm per method in
source order: assign a fresh id, emit the node declaration with its
label, then visit the children left to right emitting one edge each,
and return the id.  The float-literal label in the source is the Python
str of the stored float; it is rendered here from the rational model of
that value. -/
def DotVisitor.visitNode (node : ASTNode) (s : DotVisitor) : String × DotVisitor :=
  match node with
  | .ProgramNode mf =>
    let (nodeId, s) := s.new_id
    let s := s.add_node nodeId "Program" "rectangle"
    let (childId, s) := DotVisitor.visitNode mf s
    let s := s.add_edge nodeId childId
    (nodeId, s)
  | .MainFunctionNode stmts =>
    let (nodeId, s) := s.new_id
    let s := s.add_node nodeId "main()" "rectangle"
    let s := DotVisitor.visitStatements nodeId stmts s
    (nodeId, s)
  | .VarDeclNode c ty pd name v =>
    let (nodeId, s) := s.new_id
    let constStr := if c then "const " else ""
    let s := s.add_node nodeId ("VarDecl\\n" ++ constStr ++ ty ++ stars pd ++ " " ++ name)
      "rectangle"
    match v with
    | .some value =>
      let (childId, s) := DotVisitor.visitNode value s
      let s := s.add_edge nodeId childId
      (nodeId, s)
    | .none => (nodeId, s)
  | .AssignNode target value =>
    let (nodeId, s) := s.new_id
    let s := s.add_node nodeId "=" "ellipse"
    let (targetId, s) := DotVisitor.visitNode target s
    let (valueId, s) := DotVisitor.visitNode value s
    let s := s.add_edge nodeId targetId
    let s := s.add_edge nodeId valueId
    (nodeId, s)
  | .IntLiteralNode v =>
    let (nodeId, s) := s.new_id
    let s := s.add_node nodeId (toString v) "rectangle"
    (nodeId, s)
  | .FloatLiteralNode v =>
    let (nodeId, s) := s.new_id
    let s := s.add_node nodeId (toString v) "rectangle"
    (nodeId, s)
  | .CharLiteralNode v =>
    let (nodeId, s) := s.new_id
    let s := s.add_node nodeId (squote ++ v ++ squote) "rectangle"
    (nodeId, s)
  | .IdentifierNode name =>
    let (nodeId, s) := s.new_id
    let s := s.add_node nodeId name "ellipse"
    (nodeId, s)
  | .UnaryOpNode op operand =>
    let (nodeId, s) := s.new_id
    let s := s.add_node nodeId op "ellipse"
    let (childId, s) := DotVisitor.visitNode operand s
    let s := s.add_edge nodeId childId
    (nodeId, s)
  | .BinaryOpNode op l r =>
    let (nodeId, s) := s.new_id
    let s := s.add_node nodeId op "ellipse"
    let (leftId, s) := DotVisitor.visitNode l s
    let (rightId, s) := DotVisitor.visitNode r s
    let s := s.add_edge nodeId leftId
    let s := s.add_edge nodeId rightId
    (nodeId, s)
  | .DereferenceNode operand =>
    let (nodeId, s) := s.new_id
    let s := s.add_node nodeId "deref (*)" "ellipse"
    let (childId, s) := DotVisitor.visitNode operand s
    let s := s.add_edge nodeId childId
    (nodeId, s)
  | .AddressOfNode operand =>
    let (nodeId, s) := s.new_id
    let s := s.add_node nodeId "addr (&)" "ellipse"
    let (childId, s) := DotVisitor.visitNode operand s
    let s := s.add_edge nodeId childId
    (nodeId, s)
  | .IncrementNode operand p =>
    let (nodeId, s) := s.new_id
    let s := s.add_node nodeId (if p then "++ (prefix)" else "++ (postfix)") "ellipse"
    let (childId, s) := DotVisitor.visitNode operand s
    let s := s.add_edge nodeId childId
    (nodeId, s)
  | .DecrementNode operand p =>
    let (nodeId, s) := s.new_id
    let s := s.add_node nodeId (if p then "-- (prefix)" else "-- (postfix)") "ellipse"
    let (childId, s) := DotVisitor.visitNode operand s
    let s := s.add_edge nodeId childId
    (nodeId, s)
  | .CastNode ty pd operand =>
    let (nodeId, s) := s.new_id
    let s := s.add_node nodeId ("cast (" ++ ty ++ stars pd ++ ")") "ellipse"
    let (childId, s) := DotVisitor.visitNode operand s
    let s := s.add_edge nodeId childId
    (nodeId, s)

/-- The statement loop of _visit_MainFunctionNode (lines 95 to 97). -/
def DotVisitor.visitStatements (parentId : String) (stmts : StmtList) (s : DotVisitor) :
    DotVisitor :=
  match stmts with
  | .nil => s
  | .cons hd tl =>
    let (childId, s) := DotVisitor.visitNode hd s
    let s := s.add_edge parentId childId
    DotVisitor.visitStatements parentId tl s

end

/-- DotVisitor.visit, the public entry point (dot_visitor.py lines 57 to
68): reset the lines and the counter, emit the graph header, visit the
root, emit the footer, and join the lines with newlines.  The returned
pair also exposes the visitor state the call leaves behind, which on an
instance in Python persists into a later call. -/
def DotVisitor.visit (node : ASTNode) (s : DotVisitor) : String × DotVisitor :=
  let s := { s with lines := [], counter := 0 }
  let s := { s with lines := s.lines ++ ["digraph AST \x7b"] }
  let s := { s with lines := s.lines ++ ["    node [fontname=\"Helvetica\"];"] }
  let (_, s) := DotVisitor.visitNode node s
  let s := { s with lines := s.lines ++ ["\x7d"] }
  (String.intercalate "\n" s.lines, s)


mutual

/-- The AST node set again, with each node carrying its Python object
identity: the id field models id(node).  In-place mutation of a node
keeps its identity; only the construction of a new node takes a fresh
identity.  This refinement of ASTNode is what makes aliasing between
the environment and the tree, and between two tree positions,
observable. -/
inductive PyNode where
  | ProgramNode (id : Nat) (main_function : PyNode)
  | MainFunctionNode (id : Nat) (statements : PyStmtList)
  | VarDeclNode (id : Nat) (is_const : Bool) (type_name : String) (pointer_depth : Nat)
      (name : String) (value : PyOptNode)
  | AssignNode (id : Nat) (target : PyNode) (value : PyNode)
  | IntLiteralNode (id : Nat) (value : Int)
  | FloatLiteralNode (id : Nat) (value : Rat)
  | CharLiteralNode (id : Nat) (value : String)
  | IdentifierNode (id : Nat) (name : String)
  | UnaryOpNode (id : Nat) (op : String) (operand : PyNode)
  | BinaryOpNode (id : Nat) (op : String) (left : PyNode) (right : PyNode)
  | DereferenceNode (id : Nat) (operand : PyNode)
  | AddressOfNode (id : Nat) (operand : PyNode)
  | IncrementNode (id : Nat) (operand : PyNode) (pre : Bool)
  | DecrementNode (id : Nat) (operand : PyNode) (pre : Bool)
  | CastNode (id : Nat) (type_name : String) (pointer_depth : Nat) (operand : PyNode)
deriving DecidableEq

/-- The optional initializer slot, identity-carrying variant. -/
inductive PyOptNode where
  | none
  | some (node : PyNode)
deriving DecidableEq

/-- The statement list, identity-carrying variant. -/
inductive PyStmtList where
  | nil
  | cons (hd : PyNode) (tl : PyStmtList)
deriving DecidableEq

end

/-- The literal isinstance test on identity-carrying nodes. -/
def isPyLiteralNode : PyNode → Bool
  | .IntLiteralNode _ _ => true
  | .FloatLiteralNode _ _ => true
  | .CharLiteralNode _ _ => true
  | _ => false

/-- The known-value dict over identity-carrying nodes. -/
abbrev PyEnv := List (String × PyNode)

def pyEnvLookup : PyEnv → String → Option PyNode
  | [], _ => Option.none
  | (k, v) :: rest, name => if k = name then Option.some v else pyEnvLookup rest name

def pyEnvErase (e : PyEnv) (name : String) : PyEnv :=
  e.filter (fun p => p.1 != name)

def pyEnvInsert (e : PyEnv) (name : String) (v : PyNode) : PyEnv :=
  (name, v) :: pyEnvErase e name

mutual

/-- ConstantFolder.visit on identity-carrying nodes, with an allocation
counter: a freshly constructed IntLiteralNode — the only construction
the folder performs, in visit_UnaryOpNode line 119 and
visit_BinaryOpNode line 129 — receives the next counter value as its
identity; every other arm returns a node that already existed (the
source mutates child slots in place), so its identity is unchanged.
visit_IdentifierNode (lines 107 to 111) returns the bound node itself,
exactly as the source does: no copy is constructed.  Apart from
identities, the definition is arm for arm the one of
ConstantFolder.visit above. -/
def ConstantFolder.visitAlloc (enabled : Bool) (node : PyNode) (ctr : Nat) (known : PyEnv) :
    Except FoldError (PyNode × Nat × PyEnv) :=
  if !enabled then .ok (node, ctr, known)
  else
    match node with
    | .ProgramNode i mf =>
      match ConstantFolder.visitAlloc enabled mf ctr known with
      | .error e => .error e
      | .ok (mf2, ctr2, known2) => .ok (.ProgramNode i mf2, ctr2, known2)
    | .MainFunctionNode i stmts =>
      match ConstantFolder.visitAllocStatements enabled stmts ctr known with
      | .error e => .error e
      | .ok (stmts2, ctr2, known2) => .ok (.MainFunctionNode i stmts2, ctr2, known2)
    | .VarDeclNode i c ty pd name v =>
      match v with
      | .some init =>
        match ConstantFolder.visitAlloc enabled init ctr known with
        | .error e => .error e
        | .ok (init2, ctr2, known2) =>
          if isPyLiteralNode init2 then
            .ok (.VarDeclNode i c ty pd name (.some init2), ctr2, pyEnvInsert known2 name init2)
          else
            .ok (.VarDeclNode i c ty pd name (.some init2), ctr2, pyEnvErase known2 name)
      | .none => .ok (.VarDeclNode i c ty pd name .none, ctr, pyEnvErase known name)
    | .AssignNode i target value =>
      match ConstantFolder.visitAlloc enabled value ctr known with
      | .error e => .error e
      | .ok (value2, ctr2, known2) =>
        match target with
        | .IdentifierNode _ name =>
          if isPyLiteralNode value2 then
            .ok (.AssignNode i target value2, ctr2, pyEnvInsert known2 name value2)
          else
            .ok (.AssignNode i target value2, ctr2, pyEnvErase known2 name)
        | _ => .ok (.AssignNode i target value2, ctr2, known2)
    | .IdentifierNode i name =>
      match pyEnvLookup known name with
      | Option.some lit => .ok (lit, ctr, known)
      | Option.none => .ok (.IdentifierNode i name, ctr, known)
    | .UnaryOpNode i op operand =>
      match ConstantFolder.visitAlloc enabled operand ctr known with
      | .error e => .error e
      | .ok (operand2, ctr2, known2) =>
        match operand2 with
        | .IntLiteralNode _ v =>
          match ConstantFolder.eval_unary op v with
          | .error e => .error e
          | .ok r => .ok (.IntLiteralNode ctr2 r, ctr2 + 1, known2)
        | _ => .ok (.UnaryOpNode i op operand2, ctr2, known2)
    | .BinaryOpNode i op l r =>
      match ConstantFolder.visitAlloc enabled l ctr known with
      | .error e => .error e
      | .ok (l2, ctr2, known2) =>
        match ConstantFolder.visitAlloc enabled r ctr2 known2 with
        | .error e => .error e
        | .ok (r2, ctr3, known3) =>
          match l2, r2 with
          | .IntLiteralNode _ a, .IntLiteralNode _ b =>
            match ConstantFolder.eval_binary op a b with
            | .error e => .error e
            | .ok res => .ok (.IntLiteralNode ctr3 res, ctr3 + 1, known3)
          | _, _ => .ok (.BinaryOpNode i op l2 r2, ctr3, known3)
    | .DereferenceNode i operand =>
      match ConstantFolder.visitAlloc enabled operand ctr known with
      | .error e => .error e
      | .ok (operand2, ctr2, known2) => .ok (.DereferenceNode i operand2, ctr2, known2)
    | .AddressOfNode i operand =>
      match ConstantFolder.visitAlloc enabled operand ctr known with
      | .error e => .error e
      | .ok (operand2, ctr2, known2) => .ok (.AddressOfNode i operand2, ctr2, known2)
    | .IncrementNode i operand p =>
      match ConstantFolder.visitAlloc enabled operand ctr known with
      | .error e => .error e
      | .ok (operand2, ctr2, known2) =>
        match operand2 with
        | .IdentifierNode _ name => .ok (.IncrementNode i operand2 p, ctr2, pyEnvErase known2 name)
        | _ => .ok (.IncrementNode i operand2 p, ctr2, known2)
    | .DecrementNode i operand p =>
      match ConstantFolder.visitAlloc enabled operand ctr known with
      | .error e => .error e
      | .ok (operand2, ctr2, known2) =>
        match operand2 with
        | .IdentifierNode _ name => .ok (.DecrementNode i operand2 p, ctr2, pyEnvErase known2 name)
        | _ => .ok (.DecrementNode i operand2 p, ctr2, known2)
    | .CastNode i ty pd operand =>
      match ConstantFolder.visitAlloc enabled operand ctr known with
      | .error e => .error e
      | .ok (operand2, ctr2, known2) => .ok (.CastNode i ty pd operand2, ctr2, known2)
    | .IntLiteralNode i v => .ok (.IntLiteralNode i v, ctr, known)
    | .FloatLiteralNode i v => .ok (.FloatLiteralNode i v, ctr, known)
    | .CharLiteralNode i v => .ok (.CharLiteralNode i v, ctr, known)

/-- The statement loop of visit_MainFunctionNode on identity-carrying
nodes. -/
def ConstantFolder.visitAllocStatements (enabled : Bool) (stmts : PyStmtList) (ctr : Nat)
    (known : PyEnv) : Except FoldError (PyStmtList × Nat × PyEnv) :=
  match stmts with
  | .nil => .ok (.nil, ctr, known)
  | .cons s rest =>
    match ConstantFolder.visitAlloc enabled s ctr known with
    | .error e => .error e
    | .ok (s2, ctr2, known2) =>
      match ConstantFolder.visitAllocStatements enabled rest ctr2 known2 with
      | .error e => .error e
      | .ok (rest2, ctr3, known3) => .ok (.cons s2 rest2, ctr3, known3)

end

mutual

/-- All object identities occurring in a tree, one entry per tree
position, in pre-order.  A node object occupying two positions of the
tree shows up as a duplicated entry. -/
def PyNode.ids : PyNode → List Nat
  | .ProgramNode i mf => i :: mf.ids
  | .MainFunctionNode i stmts => i :: PyStmtList.ids stmts
  | .VarDeclNode i _ _ _ _ v => i :: PyOptNode.ids v
  | .AssignNode i t v => i :: (t.ids ++ v.ids)
  | .IntLiteralNode i _ => [i]
  | .FloatLiteralNode i _ => [i]
  | .CharLiteralNode i _ => [i]
  | .IdentifierNode i _ => [i]
  | .UnaryOpNode i _ o => i :: o.ids
  | .BinaryOpNode i _ l r => i :: (l.ids ++ r.ids)
  | .DereferenceNode i o => i :: o.ids
  | .AddressOfNode i o => i :: o.ids
  | .IncrementNode i o _ => i :: o.ids
  | .DecrementNode i o _ => i :: o.ids
  | .CastNode i _ _ o => i :: o.ids

def PyOptNode.ids : PyOptNode → List Nat
  | .none => []
  | .some n => n.ids

def PyStmtList.ids : PyStmtList → List Nat
  | .nil => []
  | .cons hd tl => hd.ids ++ PyStmtList.ids tl

end


/-- The expression fragment of the data model: nodes that may stand in
initializer, assignment-value or operand position.  Statement and
program nodes (ProgramNode, MainFunctionNode, VarDeclNode, AssignNode)
never occur inside an expression. -/
def isExprNode : ASTNode → Bool
  | .ProgramNode _ => false
  | .MainFunctionNode _ => false
  | .VarDeclNode _ _ _ _ _ => false
  | .AssignNode _ _ => false
  | .IntLiteralNode _ => true
  | .FloatLiteralNode _ => true
  | .CharLiteralNode _ => true
  | .IdentifierNode _ => true
  | .UnaryOpNode _ o => isExprNode o
  | .BinaryOpNode _ l r => isExprNode l && isExprNode r
  | .DereferenceNode o => isExprNode o
  | .AddressOfNode o => isExprNode o
  | .IncrementNode o _ => isExprNode o
  | .DecrementNode o _ => isExprNode o
  | .CastNode _ _ o => isExprNode o

/-- The invariant the folder maintains on its known-value dict: every
stored node is a literal (the dict is only ever written with a node
that passed the literal isinstance test). -/
def envWF (e : Env) : Bool :=
  e.all (fun p => isLiteralNode p.2)

/-- The program `int x = 5 / 0;` of the zero-divisor safety test. -/
def divByZeroProgram : ASTNode :=
  .ProgramNode (.MainFunctionNode (.cons
    (.VarDeclNode false "int" 0 "x"
      (.some (.BinaryOpNode "/" (.IntLiteralNode 5) (.IntLiteralNode 0))))
    .nil))

/-- The program `int x = 5; x++; int y = x;` of the
invalidation-on-mutation test. -/
def incrementProgram : ASTNode :=
  .ProgramNode (.MainFunctionNode (.cons
    (.VarDeclNode false "int" 0 "x" (.some (.IntLiteralNode 5)))
    (.cons (.IncrementNode (.IdentifierNode "x") false)
    (.cons (.VarDeclNode false "int" 0 "y" (.some (.IdentifierNode "x")))
    .nil))))

/-- The program `const int x = 5; int y = x + 2;` of the propagation
test. -/
def propagationProgram : ASTNode :=
  .ProgramNode (.MainFunctionNode (.cons
    (.VarDeclNode true "int" 0 "x" (.some (.IntLiteralNode 5)))
    (.cons (.VarDeclNode false "int" 0 "y"
      (.some (.BinaryOpNode "+" (.IdentifierNode "x") (.IntLiteralNode 2))))
    .nil)))

/-- The program `int x = 5; x = 10; int y = x;` of the
invalidation-on-reassignment test. -/
def reassignProgram : ASTNode :=
  .ProgramNode (.MainFunctionNode (.cons
    (.VarDeclNode false "int" 0 "x" (.some (.IntLiteralNode 5)))
    (.cons (.AssignNode (.IdentifierNode "x") (.IntLiteralNode 10))
    (.cons (.VarDeclNode false "int" 0 "y" (.some (.IdentifierNode "x")))
    .nil))))

/-- A BinaryOp both of whose operands are (float) literals. -/
def floatAddNode : ASTNode :=
  .BinaryOpNode "+" (.FloatLiteralNode 1) (.FloatLiteralNode 2)

/-- The program `int x = 5; int y = x;` with every node carrying a
distinct object identity. -/
def sharingProgram : PyNode :=
  .ProgramNode 1 (.MainFunctionNode 2 (.cons
    (.VarDeclNode 3 false "int" 0 "x" (.some (.IntLiteralNode 4 5)))
    (.cons (.VarDeclNode 5 false "int" 0 "y" (.some (.IdentifierNode 6 "x")))
    .nil)))

/-- The tree the folding pass leaves behind on sharingProgram: the
literal node with identity 4 now occupies both initializer slots. -/
def sharingProgramFolded : PyNode :=
  .ProgramNode 1 (.MainFunctionNode 2 (.cons
    (.VarDeclNode 3 false "int" 0 "x" (.some (.IntLiteralNode 4 5)))
    (.cons (.VarDeclNode 5 false "int" 0 "y" (.some (.IntLiteralNode 4 5)))
    .nil)))

/-- The assignment-target slot of a node: the target child for an
AssignNode, nothing for any other node kind. -/
def assignTarget : ASTNode → Option ASTNode
  | .AssignNode t _ => Option.some t
  | _ => Option.none

/-! Helper lemmas about the known-value environment and the folding
visitor, shared by the claim theorems below. -/


theorem envErase_of_lookup_none (e : Env) (name : String)
    (h : envLookup e name = Option.none) : envErase e name = e := by
  induction e with
  | nil => rfl
  | cons p rest ih =>
    obtain ⟨k, v⟩ := p
    simp only [envLookup] at h
    by_cases hk : k = name
    · simp [hk] at h
    · simp only [hk, if_false] at h
      simp [envErase, List.filter_cons, hk] at ih ⊢
      exact ih h

theorem envLookup_erase (e : Env) (name m : String) :
    envLookup (envErase e name) m
      = if name = m then Option.none else envLookup e m := by
  induction e with
  | nil => simp [envErase, envLookup]
  | cons p rest ih =>
    obtain ⟨k, v⟩ := p
    by_cases hk : k = name
    · subst hk
      by_cases hm : k = m
      · subst hm
        simp [envErase, envLookup, List.filter_cons] at ih ⊢
        simpa using ih
      · simp [envErase, envLookup, List.filter_cons, hm] at ih ⊢
        simpa [hm] using ih
    · by_cases hm : k = m
      · subst hm
        have : ¬ (name = k) := fun hh => hk hh.symm
        simp [envErase, envLookup, List.filter_cons, hk, this]
      · simp [envErase, envLookup, List.filter_cons, hk, hm] at ih ⊢
        exact ih


theorem visit_literal_env : (e : ASTNode) → ∀ (known : Env) (e2 : ASTNode) (known2 : Env),
    ConstantFolder.visit true e known = .ok (e2, known2) → isLiteralNode e2 = true →
    known2 = known
  | .ProgramNode mf => by
    intro known e2 known2 h hl
    simp only [ConstantFolder.visit, Bool.not_true, Bool.false_eq_true, if_false] at h
    split at h
    · simp at h
    · injection h with h1; injection h1 with he hk
      subst he; simp [isLiteralNode] at hl
  | .MainFunctionNode stmts => by
    intro known e2 known2 h hl
    simp only [ConstantFolder.visit, Bool.not_true, Bool.false_eq_true, if_false] at h
    split at h
    · simp at h
    · injection h with h1; injection h1 with he hk
      subst he; simp [isLiteralNode] at hl
  | .VarDeclNode c ty pd name (.some init) => by
    intro known e2 known2 h hl
    simp only [ConstantFolder.visit, Bool.not_true, Bool.false_eq_true, if_false] at h
    split at h
    · simp at h
    · split at h <;>
      · injection h with h1; injection h1 with he hk
        subst he; simp [isLiteralNode] at hl
  | .VarDeclNode c ty pd name .none => by
    intro known e2 known2 h hl
    simp only [ConstantFolder.visit, Bool.not_true, Bool.false_eq_true, if_false] at h
    injection h with h1; injection h1 with he hk
    subst he; simp [isLiteralNode] at hl
  | .AssignNode target value => by
    intro known e2 known2 h hl
    simp only [ConstantFolder.visit, Bool.not_true, Bool.false_eq_true, if_false] at h
    split at h
    · simp at h
    · split at h
      · split at h <;>
        · injection h with h1; injection h1 with he hk
          subst he; simp [isLiteralNode] at hl
      · injection h with h1; injection h1 with he hk
        subst he; simp [isLiteralNode] at hl
  | .IntLiteralNode val => by
    intro known e2 known2 h hl
    simp only [ConstantFolder.visit, Bool.not_true, Bool.false_eq_true, if_false] at h
    injection h with h1; injection h1 with he hk
    exact hk.symm
  | .FloatLiteralNode val => by
    intro known e2 known2 h hl
    simp only [ConstantFolder.visit, Bool.not_true, Bool.false_eq_true, if_false] at h
    injection h with h1; injection h1 with he hk
    exact hk.symm
  | .CharLiteralNode val => by
    intro known e2 known2 h hl
    simp only [ConstantFolder.visit, Bool.not_true, Bool.false_eq_true, if_false] at h
    injection h with h1; injection h1 with he hk
    exact hk.symm
  | .IdentifierNode name => by
    intro known e2 known2 h hl
    simp only [ConstantFolder.visit, Bool.not_true, Bool.false_eq_true, if_false] at h
    split at h <;>
    · injection h with h1; injection h1 with he hk
      exact hk.symm
  | .UnaryOpNode op o => by
    intro known e2 known2 h hl
    simp only [ConstantFolder.visit, Bool.not_true, Bool.false_eq_true, if_false] at h
    split at h
    · simp at h
    · rename_i o2 k2 heq
      split at h
      · split at h
        · simp at h
        · injection h with h1; injection h1 with he hk
          rw [← hk]
          exact visit_literal_env o known _ k2 heq (by simp [isLiteralNode])
      · injection h with h1; injection h1 with he hk
        subst he; simp [isLiteralNode] at hl
  | .BinaryOpNode op l r => by
    intro known e2 known2 h hl
    simp only [ConstantFolder.visit, Bool.not_true, Bool.false_eq_true, if_false] at h
    split at h
    · simp at h
    · rename_i l2 k2 heqL
      split at h
      · simp at h
      · rename_i r2 k3 heqR
        split at h
        · split at h
          · simp at h
          · injection h with h1; injection h1 with he hk
            rw [← hk]
            have h2 : k2 = known := visit_literal_env l known _ k2 heqL (by simp [isLiteralNode])
            have h3 : k3 = k2 := visit_literal_env r k2 _ k3 heqR (by simp [isLiteralNode])
            rw [h3, h2]
        · injection h with h1; injection h1 with he hk
          subst he; simp [isLiteralNode] at hl
  | .DereferenceNode o => by
    intro known e2 known2 h hl
    simp only [ConstantFolder.visit, Bool.not_true, Bool.false_eq_true, if_false] at h
    split at h
    · simp at h
    · injection h with h1; injection h1 with he hk
      subst he; simp [isLiteralNode] at hl
  | .AddressOfNode o => by
    intro known e2 known2 h hl
    simp only [ConstantFolder.visit, Bool.not_true, Bool.false_eq_true, if_false] at h
    split at h
    · simp at h
    · injection h with h1; injection h1 with he hk
      subst he; simp [isLiteralNode] at hl
  | .IncrementNode o p => by
    intro known e2 known2 h hl
    simp only [ConstantFolder.visit, Bool.not_true, Bool.false_eq_true, if_false] at h
    split at h
    · simp at h
    · split at h <;>
      · injection h with h1; injection h1 with he hk
        subst he; simp [isLiteralNode] at hl
  | .DecrementNode o p => by
    intro known e2 known2 h hl
    simp only [ConstantFolder.visit, Bool.not_true, Bool.false_eq_true, if_false] at h
    split at h
    · simp at h
    · split at h <;>
      · injection h with h1; injection h1 with he hk
        subst he; simp [isLiteralNode] at hl
  | .CastNode ty pd o => by
    intro known e2 known2 h hl
    simp only [ConstantFolder.visit, Bool.not_true, Bool.false_eq_true, if_false] at h
    split at h
    · simp at h
    · injection h with h1; injection h1 with he hk
      subst he; simp [isLiteralNode] at hl


theorem visit_literal (lit : ASTNode) (hl : isLiteralNode lit = true) (env : Env) :
    ConstantFolder.visit true lit env = .ok (lit, env) := by
  cases lit <;> simp_all [isLiteralNode, ConstantFolder.visit]

theorem envWF_lookup (e : Env) (name : String) (v : ASTNode)
    (hW : envWF e = true) (h : envLookup e name = Option.some v) :
    isLiteralNode v = true := by
  induction e with
  | nil => simp [envLookup] at h
  | cons p rest ih =>
    obtain ⟨k, w⟩ := p
    simp only [envLookup] at h
    simp only [envWF, List.all_cons, Bool.and_eq_true] at hW
    by_cases hk : k = name
    · simp only [hk, if_true, Option.some.injEq] at h
      subst h; exact hW.1
    · simp only [hk, if_false] at h
      exact ih hW.2 h

theorem envWF_erase (e : Env) (name : String) (hW : envWF e = true) :
    envWF (envErase e name) = true := by
  simp only [envWF, envErase, List.all_eq_true] at *
  intro p hp
  exact hW p (List.mem_of_mem_filter hp)

theorem envWF_insert (e : Env) (name : String) (v : ASTNode)
    (hl : isLiteralNode v = true) (hW : envWF e = true) :
    envWF (envInsert e name v) = true := by
  simp only [envInsert, envWF, List.all_cons, Bool.and_eq_true]
  exact ⟨hl, envWF_erase e name hW⟩

mutual

theorem visit_envWF : (e : ASTNode) → ∀ (known : Env) (e2 : ASTNode) (known2 : Env),
    envWF known = true → ConstantFolder.visit true e known = .ok (e2, known2) →
    envWF known2 = true
  | .ProgramNode mf => by
    intro known e2 known2 hW h
    simp only [ConstantFolder.visit, Bool.not_true, Bool.false_eq_true, if_false] at h
    split at h
    · simp at h
    · rename_i mf2 k2 heq
      injection h with h1; injection h1 with he hk
      rw [← hk]; exact visit_envWF mf known mf2 k2 hW heq
  | .MainFunctionNode stmts => by
    intro known e2 known2 hW h
    simp only [ConstantFolder.visit, Bool.not_true, Bool.false_eq_true, if_false] at h
    split at h
    · simp at h
    · rename_i s2 k2 heq
      injection h with h1; injection h1 with he hk
      rw [← hk]; exact visitStatements_envWF stmts known s2 k2 hW heq
  | .VarDeclNode c ty pd name (.some init) => by
    intro known e2 known2 hW h
    simp only [ConstantFolder.visit, Bool.not_true, Bool.false_eq_true, if_false] at h
    split at h
    · simp at h
    · rename_i init2 k2 heq
      have hW2 := visit_envWF init known init2 k2 hW heq
      split at h
      · rename_i hlit
        injection h with h1; injection h1 with he hk
        rw [← hk]; exact envWF_insert k2 name init2 hlit hW2
      · injection h with h1; injection h1 with he hk
        rw [← hk]; exact envWF_erase k2 name hW2
  | .VarDeclNode c ty pd name .none => by
    intro known e2 known2 hW h
    simp only [ConstantFolder.visit, Bool.not_true, Bool.false_eq_true, if_false] at h
    injection h with h1; injection h1 with he hk
    rw [← hk]; exact envWF_erase known name hW
  | .AssignNode target value => by
    intro known e2 known2 hW h
    simp only [ConstantFolder.visit, Bool.not_true, Bool.false_eq_true, if_false] at h
    split at h
    · simp at h
    · rename_i value2 k2 heq
      have hW2 := visit_envWF value known value2 k2 hW heq
      split at h
      · rename_i tgt nm
        split at h
        · rename_i hlit
          injection h with h1; injection h1 with he hk
          rw [← hk]
          exact envWF_insert k2 nm value2 hlit hW2
        · injection h with h1; injection h1 with he hk
          rw [← hk]
          exact envWF_erase k2 nm hW2
      · injection h with h1; injection h1 with he hk
        rw [← hk]; exact hW2
  | .IntLiteralNode val => by
    intro known e2 known2 hW h
    simp only [ConstantFolder.visit, Bool.not_true, Bool.false_eq_true, if_false] at h
    injection h with h1; injection h1 with he hk
    rw [← hk]; exact hW
  | .FloatLiteralNode val => by
    intro known e2 known2 hW h
    simp only [ConstantFolder.visit, Bool.not_true, Bool.false_eq_true, if_false] at h
    injection h with h1; injection h1 with he hk
    rw [← hk]; exact hW
  | .CharLiteralNode val => by
    intro known e2 known2 hW h
    simp only [ConstantFolder.visit, Bool.not_true, Bool.false_eq_true, if_false] at h
    injection h with h1; injection h1 with he hk
    rw [← hk]; exact hW
  | .IdentifierNode name => by
    intro known e2 known2 hW h
    simp only [ConstantFolder.visit, Bool.not_true, Bool.false_eq_true, if_false] at h
    split at h <;>
    · injection h with h1; injection h1 with he hk
      rw [← hk]; exact hW
  | .UnaryOpNode op o => by
    intro known e2 known2 hW h
    simp only [ConstantFolder.visit, Bool.not_true, Bool.false_eq_true, if_false] at h
    split at h
    · simp at h
    · rename_i o2 k2 heq
      have hW2 := visit_envWF o known o2 k2 hW heq
      split at h
      · split at h
        · simp at h
        · injection h with h1; injection h1 with he hk
          rw [← hk]; exact hW2
      · injection h with h1; injection h1 with he hk
        rw [← hk]; exact hW2
  | .BinaryOpNode op l r => by
    intro known e2 known2 hW h
    simp only [ConstantFolder.visit, Bool.not_true, Bool.false_eq_true, if_false] at h
    split at h
    · simp at h
    · rename_i l2 k2 heqL
      have hW2 := visit_envWF l known l2 k2 hW heqL
      split at h
      · simp at h
      · rename_i r2 k3 heqR
        have hW3 := visit_envWF r k2 r2 k3 hW2 heqR
        split at h
        · split at h
          · simp at h
          · injection h with h1; injection h1 with he hk
            rw [← hk]; exact hW3
        · injection h with h1; injection h1 with he hk
          rw [← hk]; exact hW3
  | .DereferenceNode o => by
    intro known e2 known2 hW h
    simp only [ConstantFolder.visit, Bool.not_true, Bool.false_eq_true, if_false] at h
    split at h
    · simp at h
    · rename_i o2 k2 heq
      injection h with h1; injection h1 with he hk
      rw [← hk]; exact visit_envWF o known o2 k2 hW heq
  | .AddressOfNode o => by
    intro known e2 known2 hW h
    simp only [ConstantFolder.visit, Bool.not_true, Bool.false_eq_true, if_false] at h
    split at h
    · simp at h
    · rename_i o2 k2 heq
      injection h with h1; injection h1 with he hk
      rw [← hk]; exact visit_envWF o known o2 k2 hW heq
  | .IncrementNode o p => by
    intro known e2 known2 hW h
    simp only [ConstantFolder.visit, Bool.not_true, Bool.false_eq_true, if_false] at h
    split at h
    · simp at h
    · rename_i o2 k2 heq
      have hW2 := visit_envWF o known o2 k2 hW heq
      split at h
      · injection h with h1; injection h1 with he hk
        rw [← hk]; rename_i name
        exact envWF_erase k2 name hW2
      · injection h with h1; injection h1 with he hk
        rw [← hk]; exact hW2
  | .DecrementNode o p => by
    intro known e2 known2 hW h
    simp only [ConstantFolder.visit, Bool.not_true, Bool.false_eq_true, if_false] at h
    split at h
    · simp at h
    · rename_i o2 k2 heq
      have hW2 := visit_envWF o known o2 k2 hW heq
      split at h
      · injection h with h1; injection h1 with he hk
        rw [← hk]; rename_i name
        exact envWF_erase k2 name hW2
      · injection h with h1; injection h1 with he hk
        rw [← hk]; exact hW2
  | .CastNode ty pd o => by
    intro known e2 known2 hW h
    simp only [ConstantFolder.visit, Bool.not_true, Bool.false_eq_true, if_false] at h
    split at h
    · simp at h
    · rename_i o2 k2 heq
      injection h with h1; injection h1 with he hk
      rw [← hk]; exact visit_envWF o known o2 k2 hW heq

theorem visitStatements_envWF : (ss : StmtList) → ∀ (known : Env) (ss2 : StmtList) (known2 : Env),
    envWF known = true → ConstantFolder.visitStatements true ss known = .ok (ss2, known2) →
    envWF known2 = true
  | .nil => by
    intro known ss2 known2 hW h
    simp only [ConstantFolder.visitStatements] at h
    injection h with h1; injection h1 with he hk
    rw [← hk]; exact hW
  | .cons s rest => by
    intro known ss2 known2 hW h
    simp only [ConstantFolder.visitStatements] at h
    split at h
    · simp at h
    · rename_i s2 k2 heq
      have hW2 := visit_envWF s known s2 k2 hW heq
      split at h
      · simp at h
      · rename_i rest2 k3 heqR
        injection h with h1; injection h1 with he hk
        rw [← hk]; exact visitStatements_envWF rest k2 rest2 k3 hW2 heqR

end


mutual

theorem visit_revisit : (e : ASTNode) → ∀ (known : Env) (e2 : ASTNode) (known2 : Env),
    envWF known = true →
    ConstantFolder.visit true e known = .ok (e2, known2) →
    ConstantFolder.visit true e2 known = .ok (e2, known2)
  | .ProgramNode mf => by
    intro known e2 known2 hW h
    simp only [ConstantFolder.visit, Bool.not_true, Bool.false_eq_true, if_false] at h
    split at h
    · simp at h
    · rename_i mf2 k2 heq
      injection h with h1; injection h1 with he hk
      subst he; subst hk
      simp only [ConstantFolder.visit, Bool.not_true, Bool.false_eq_true, if_false,
        visit_revisit mf known mf2 k2 hW heq]
  | .MainFunctionNode stmts => by
    intro known e2 known2 hW h
    simp only [ConstantFolder.visit, Bool.not_true, Bool.false_eq_true, if_false] at h
    split at h
    · simp at h
    · rename_i s2 k2 heq
      injection h with h1; injection h1 with he hk
      subst he; subst hk
      simp only [ConstantFolder.visit, Bool.not_true, Bool.false_eq_true, if_false,
        visitStatements_revisit stmts known s2 k2 hW heq]
  | .VarDeclNode c ty pd name (.some init) => by
    intro known e2 known2 hW h
    simp only [ConstantFolder.visit, Bool.not_true, Bool.false_eq_true, if_false] at h
    split at h
    · simp at h
    · rename_i init2 k2 heq
      have hrev := visit_revisit init known init2 k2 hW heq
      split at h
      · rename_i hlit
        injection h with h1; injection h1 with he hk
        subst he; subst hk
        simp [ConstantFolder.visit, hrev, hlit]
      · rename_i hlit
        injection h with h1; injection h1 with he hk
        subst he; subst hk
        simp [ConstantFolder.visit, hrev, hlit]
  | .VarDeclNode c ty pd name .none => by
    intro known e2 known2 hW h
    simp only [ConstantFolder.visit, Bool.not_true, Bool.false_eq_true, if_false] at h
    injection h with h1; injection h1 with he hk
    subst he; subst hk
    simp [ConstantFolder.visit]
  | .AssignNode target value => by
    intro known e2 known2 hW h
    simp only [ConstantFolder.visit, Bool.not_true, Bool.false_eq_true, if_false] at h
    split at h
    · simp at h
    · rename_i value2 k2 heq
      have hrev := visit_revisit value known value2 k2 hW heq
      split at h
      · rename_i tgt nm
        split at h
        · rename_i hlit
          injection h with h1; injection h1 with he hk
          subst he; subst hk
          simp [ConstantFolder.visit, hrev, hlit]
        · rename_i hlit
          injection h with h1; injection h1 with he hk
          subst he; subst hk
          simp [ConstantFolder.visit, hrev, hlit]
      · rename_i hne
        injection h with h1; injection h1 with he hk
        subst he; subst hk
        simp only [ConstantFolder.visit, Bool.not_true, Bool.false_eq_true, if_false, hrev]
  | .IntLiteralNode val => by
    intro known e2 known2 hW h
    simp only [ConstantFolder.visit, Bool.not_true, Bool.false_eq_true, if_false] at h
    injection h with h1; injection h1 with he hk
    subst he; subst hk
    simp [ConstantFolder.visit]
  | .FloatLiteralNode val => by
    intro known e2 known2 hW h
    simp only [ConstantFolder.visit, Bool.not_true, Bool.false_eq_true, if_false] at h
    injection h with h1; injection h1 with he hk
    subst he; subst hk
    simp [ConstantFolder.visit]
  | .CharLiteralNode val => by
    intro known e2 known2 hW h
    simp only [ConstantFolder.visit, Bool.not_true, Bool.false_eq_true, if_false] at h
    injection h with h1; injection h1 with he hk
    subst he; subst hk
    simp [ConstantFolder.visit]
  | .IdentifierNode name => by
    intro known e2 known2 hW h
    simp only [ConstantFolder.visit, Bool.not_true, Bool.false_eq_true, if_false] at h
    split at h
    · rename_i lit hlook
      injection h with h1; injection h1 with he hk
      subst he; subst hk
      exact visit_literal lit (envWF_lookup known name lit hW hlook) known
    · rename_i hlook
      injection h with h1; injection h1 with he hk
      subst he; subst hk
      simp [ConstantFolder.visit, hlook]
  | .UnaryOpNode op o => by
    intro known e2 known2 hW h
    simp only [ConstantFolder.visit, Bool.not_true, Bool.false_eq_true, if_false] at h
    split at h
    · simp at h
    · rename_i o2 k2 heq
      split at h
      · rename_i v
        split at h
        · simp at h
        · rename_i res hev
          injection h with h1; injection h1 with he hk
          subst he; subst hk
          have hk2 : k2 = known :=
            visit_literal_env o known (.IntLiteralNode v) k2 heq (by simp [isLiteralNode])
          rw [hk2]
          simp [ConstantFolder.visit]
      · rename_i hne
        injection h with h1; injection h1 with he hk
        subst he; subst hk
        have hrev := visit_revisit o known o2 k2 hW heq
        simp only [ConstantFolder.visit, Bool.not_true, Bool.false_eq_true, if_false, hrev]
  | .BinaryOpNode op l r => by
    intro known e2 known2 hW h
    simp only [ConstantFolder.visit, Bool.not_true, Bool.false_eq_true, if_false] at h
    split at h
    · simp at h
    · rename_i l2 k2 heqL
      split at h
      · simp at h
      · rename_i r2 k3 heqR
        split at h
        · rename_i a b
          split at h
          · simp at h
          · rename_i res hev
            injection h with h1; injection h1 with he hk
            subst he; subst hk
            have hk2 : k2 = known :=
              visit_literal_env l known (.IntLiteralNode a) k2 heqL (by simp [isLiteralNode])
            have hk3 : k3 = k2 :=
              visit_literal_env r k2 (.IntLiteralNode b) k3 heqR (by simp [isLiteralNode])
            rw [hk3, hk2]
            simp [ConstantFolder.visit]
        · rename_i hne
          injection h with h1; injection h1 with he hk
          subst he; subst hk
          have hW2 := visit_envWF l known l2 k2 hW heqL
          have hrevL := visit_revisit l known l2 k2 hW heqL
          have hrevR := visit_revisit r k2 r2 k3 hW2 heqR
          simp only [ConstantFolder.visit, Bool.not_true, Bool.false_eq_true, if_false,
            hrevL, hrevR]
  | .DereferenceNode o => by
    intro known e2 known2 hW h
    simp only [ConstantFolder.visit, Bool.not_true, Bool.false_eq_true, if_false] at h
    split at h
    · simp at h
    · rename_i o2 k2 heq
      injection h with h1; injection h1 with he hk
      subst he; subst hk
      simp only [ConstantFolder.visit, Bool.not_true, Bool.false_eq_true, if_false,
        visit_revisit o known o2 k2 hW heq]
  | .AddressOfNode o => by
    intro known e2 known2 hW h
    simp only [ConstantFolder.visit, Bool.not_true, Bool.false_eq_true, if_false] at h
    split at h
    · simp at h
    · rename_i o2 k2 heq
      injection h with h1; injection h1 with he hk
      subst he; subst hk
      simp only [ConstantFolder.visit, Bool.not_true, Bool.false_eq_true, if_false,
        visit_revisit o known o2 k2 hW heq]
  | .IncrementNode o p => by
    intro known e2 known2 hW h
    simp only [ConstantFolder.visit, Bool.not_true, Bool.false_eq_true, if_false] at h
    split at h
    · simp at h
    · rename_i o2 k2 heq
      have hrev := visit_revisit o known o2 k2 hW heq
      split at h
      · rename_i nm
        injection h with h1; injection h1 with he hk
        subst he; subst hk
        simp only [ConstantFolder.visit, Bool.not_true, Bool.false_eq_true, if_false] at hrev
        simp only [ConstantFolder.visit, Bool.not_true, Bool.false_eq_true, if_false, hrev]
      · rename_i hne
        injection h with h1; injection h1 with he hk
        subst he; subst hk
        simp only [ConstantFolder.visit, Bool.not_true, Bool.false_eq_true, if_false, hrev]
  | .DecrementNode o p => by
    intro known e2 known2 hW h
    simp only [ConstantFolder.visit, Bool.not_true, Bool.false_eq_true, if_false] at h
    split at h
    · simp at h
    · rename_i o2 k2 heq
      have hrev := visit_revisit o known o2 k2 hW heq
      split at h
      · rename_i nm
        injection h with h1; injection h1 with he hk
        subst he; subst hk
        simp only [ConstantFolder.visit, Bool.not_true, Bool.false_eq_true, if_false] at hrev
        simp only [ConstantFolder.visit, Bool.not_true, Bool.false_eq_true, if_false, hrev]
      · rename_i hne
        injection h with h1; injection h1 with he hk
        subst he; subst hk
        simp only [ConstantFolder.visit, Bool.not_true, Bool.false_eq_true, if_false, hrev]
  | .CastNode ty pd o => by
    intro known e2 known2 hW h
    simp only [ConstantFolder.visit, Bool.not_true, Bool.false_eq_true, if_false] at h
    split at h
    · simp at h
    · rename_i o2 k2 heq
      injection h with h1; injection h1 with he hk
      subst he; subst hk
      simp only [ConstantFolder.visit, Bool.not_true, Bool.false_eq_true, if_false,
        visit_revisit o known o2 k2 hW heq]

theorem visitStatements_revisit : (ss : StmtList) → ∀ (known : Env) (ss2 : StmtList) (known2 : Env),
    envWF known = true →
    ConstantFolder.visitStatements true ss known = .ok (ss2, known2) →
    ConstantFolder.visitStatements true ss2 known = .ok (ss2, known2)
  | .nil => by
    intro known ss2 known2 hW h
    simp only [ConstantFolder.visitStatements] at h
    injection h with h1; injection h1 with he hk
    subst he; subst hk
    simp only [ConstantFolder.visitStatements]
  | .cons s rest => by
    intro known ss2 known2 hW h
    simp only [ConstantFolder.visitStatements] at h
    split at h
    · simp at h
    · rename_i s2 k2 heq
      split at h
      · simp at h
      · rename_i rest2 k3 heqR
        injection h with h1; injection h1 with he hk
        subst he; subst hk
        have hW2 := visit_envWF s known s2 k2 hW heq
        simp only [ConstantFolder.visitStatements,
          visit_revisit s known s2 k2 hW heq,
          visitStatements_revisit rest k2 rest2 k3 hW2 heqR]

end


theorem visit_expr_env : (e : ASTNode) → ∀ (known : Env) (e2 : ASTNode) (known2 : Env),
    isExprNode e = true → envWF known = true →
    ConstantFolder.visit true e known = .ok (e2, known2) →
    known2 = known ∧ (∀ nm, e2 = .IdentifierNode nm → envLookup known nm = Option.none)
  | .ProgramNode mf => by
    intro known e2 known2 hE hW h
    simp [isExprNode] at hE
  | .MainFunctionNode stmts => by
    intro known e2 known2 hE hW h
    simp [isExprNode] at hE
  | .VarDeclNode c ty pd name v => by
    intro known e2 known2 hE hW h
    simp [isExprNode] at hE
  | .AssignNode target value => by
    intro known e2 known2 hE hW h
    simp [isExprNode] at hE
  | .IntLiteralNode val => by
    intro known e2 known2 hE hW h
    simp only [ConstantFolder.visit, Bool.not_true, Bool.false_eq_true, if_false] at h
    injection h with h1; injection h1 with he hk
    subst he; subst hk
    exact ⟨rfl, fun nm hc => by cases hc⟩
  | .FloatLiteralNode val => by
    intro known e2 known2 hE hW h
    simp only [ConstantFolder.visit, Bool.not_true, Bool.false_eq_true, if_false] at h
    injection h with h1; injection h1 with he hk
    subst he; subst hk
    exact ⟨rfl, fun nm hc => by cases hc⟩
  | .CharLiteralNode val => by
    intro known e2 known2 hE hW h
    simp only [ConstantFolder.visit, Bool.not_true, Bool.false_eq_true, if_false] at h
    injection h with h1; injection h1 with he hk
    subst he; subst hk
    exact ⟨rfl, fun nm hc => by cases hc⟩
  | .IdentifierNode name => by
    intro known e2 known2 hE hW h
    simp only [ConstantFolder.visit, Bool.not_true, Bool.false_eq_true, if_false] at h
    split at h
    · rename_i lit hlook
      injection h with h1; injection h1 with he hk
      subst he; subst hk
      refine ⟨rfl, ?_⟩
      intro nm he2
      have hlit := envWF_lookup known name lit hW hlook
      rw [he2] at hlit
      simp [isLiteralNode] at hlit
    · rename_i hlook
      injection h with h1; injection h1 with he hk
      subst he; subst hk
      refine ⟨rfl, ?_⟩
      intro nm he2
      injection he2 with hnm
      subst hnm
      exact hlook
  | .UnaryOpNode op o => by
    intro known e2 known2 hE hW h
    simp only [isExprNode] at hE
    simp only [ConstantFolder.visit, Bool.not_true, Bool.false_eq_true, if_false] at h
    split at h
    · simp at h
    · rename_i o2 k2 heq
      obtain ⟨hk2, hid⟩ := visit_expr_env o known o2 k2 hE hW heq
      split at h
      · split at h
        · simp at h
        · injection h with h1; injection h1 with he hk
          subst he; subst hk
          exact ⟨hk2, fun nm hc => by cases hc⟩
      · injection h with h1; injection h1 with he hk
        subst he; subst hk
        exact ⟨hk2, fun nm hc => by cases hc⟩
  | .BinaryOpNode op l r => by
    intro known e2 known2 hE hW h
    simp only [isExprNode, Bool.and_eq_true] at hE
    simp only [ConstantFolder.visit, Bool.not_true, Bool.false_eq_true, if_false] at h
    split at h
    · simp at h
    · rename_i l2 k2 heqL
      obtain ⟨hk2, hidL⟩ := visit_expr_env l known l2 k2 hE.1 hW heqL
      split at h
      · simp at h
      · rename_i r2 k3 heqR
        have hW2 : envWF k2 = true := by rw [hk2]; exact hW
        obtain ⟨hk3, hidR⟩ := visit_expr_env r k2 r2 k3 hE.2 hW2 heqR
        have hk3' : k3 = known := by rw [hk3, hk2]
        split at h
        · split at h
          · simp at h
          · injection h with h1; injection h1 with he hk
            subst he; subst hk
            exact ⟨hk3', fun nm hc => by cases hc⟩
        · injection h with h1; injection h1 with he hk
          subst he; subst hk
          exact ⟨hk3', fun nm hc => by cases hc⟩
  | .DereferenceNode o => by
    intro known e2 known2 hE hW h
    simp only [isExprNode] at hE
    simp only [ConstantFolder.visit, Bool.not_true, Bool.false_eq_true, if_false] at h
    split at h
    · simp at h
    · rename_i o2 k2 heq
      obtain ⟨hk2, hid⟩ := visit_expr_env o known o2 k2 hE hW heq
      injection h with h1; injection h1 with he hk
      subst he; subst hk
      exact ⟨hk2, fun nm hc => by cases hc⟩
  | .AddressOfNode o => by
    intro known e2 known2 hE hW h
    simp only [isExprNode] at hE
    simp only [ConstantFolder.visit, Bool.not_true, Bool.false_eq_true, if_false] at h
    split at h
    · simp at h
    · rename_i o2 k2 heq
      obtain ⟨hk2, hid⟩ := visit_expr_env o known o2 k2 hE hW heq
      injection h with h1; injection h1 with he hk
      subst he; subst hk
      exact ⟨hk2, fun nm hc => by cases hc⟩
  | .IncrementNode o p => by
    intro known e2 known2 hE hW h
    simp only [isExprNode] at hE
    simp only [ConstantFolder.visit, Bool.not_true, Bool.false_eq_true, if_false] at h
    split at h
    · simp at h
    · rename_i o2 k2 heq
      obtain ⟨hk2, hid⟩ := visit_expr_env o known o2 k2 hE hW heq
      split at h
      · rename_i nm0
        injection h with h1; injection h1 with he hk
        subst he; subst hk
        have hnone : envLookup known nm0 = Option.none := hid nm0 rfl
        refine ⟨?_, fun nm hc => by cases hc⟩
        rw [hk2]
        exact envErase_of_lookup_none known nm0 hnone
      · injection h with h1; injection h1 with he hk
        subst he; subst hk
        exact ⟨hk2, fun nm hc => by cases hc⟩
  | .DecrementNode o p => by
    intro known e2 known2 hE hW h
    simp only [isExprNode] at hE
    simp only [ConstantFolder.visit, Bool.not_true, Bool.false_eq_true, if_false] at h
    split at h
    · simp at h
    · rename_i o2 k2 heq
      obtain ⟨hk2, hid⟩ := visit_expr_env o known o2 k2 hE hW heq
      split at h
      · rename_i nm0
        injection h with h1; injection h1 with he hk
        subst he; subst hk
        have hnone : envLookup known nm0 = Option.none := hid nm0 rfl
        refine ⟨?_, fun nm hc => by cases hc⟩
        rw [hk2]
        exact envErase_of_lookup_none known nm0 hnone
      · injection h with h1; injection h1 with he hk
        subst he; subst hk
        exact ⟨hk2, fun nm hc => by cases hc⟩
  | .CastNode ty pd o => by
    intro known e2 known2 hE hW h
    simp only [isExprNode] at hE
    simp only [ConstantFolder.visit, Bool.not_true, Bool.false_eq_true, if_false] at h
    split at h
    · simp at h
    · rename_i o2 k2 heq
      obtain ⟨hk2, hid⟩ := visit_expr_env o known o2 k2 hE hW heq
      injection h with h1; injection h1 with he hk
      subst he; subst hk
      exact ⟨hk2, fun nm hc => by cases hc⟩

/-- With folding disabled the visitor is a strict identity transform:
every node is returned unchanged with the environment untouched. -/
theorem visit_disabled (node : ASTNode) (known : Env) :
    ConstantFolder.visit false node known = .ok (node, known) := by
  cases node <;> first
  | rfl
  | rename_i v; cases v <;> rfl

/-! Lemmas for the binary64 division model: the bit-length and
rounding helpers meet their arithmetic specifications, and for
magnitudes below 2 ^ 53 the rounded float quotient truncates back to
the exact integer quotient. -/

theorem pow2_eq (k : Nat) : pow2 k = 2 ^ k := by
  rw [pow2, ← pow_mul, ← pow_add, Nat.div_add_mod]

theorem pow2_pos (k : Nat) : 0 < pow2 k := by
  rw [pow2_eq]; positivity

theorem bitLenSmall_zero (fuel : Nat) : bitLenSmall fuel 0 = 0 := by
  cases fuel <;> simp [bitLenSmall]

theorem bitLenSmall_spec : ∀ (fuel n : Nat), n < 2 ^ fuel → 1 ≤ n →
    n < 2 ^ bitLenSmall fuel n ∧ 2 ^ bitLenSmall fuel n ≤ 2 * n
  | 0, n, hf, hn => by omega
  | fuel + 1, n, hf, hn => by
    rw [bitLenSmall, if_neg (by omega)]
    by_cases h1 : n = 1
    · subst h1
      simp [bitLenSmall_zero]
    · have hfu : n / 2 < 2 ^ fuel := by
        have hp : (2:ℕ) ^ (fuel + 1) = 2 * 2 ^ fuel := by ring
        omega
      have h2 : 1 ≤ n / 2 := by omega
      obtain ⟨ih1, ih2⟩ := bitLenSmall_spec fuel (n / 2) hfu h2
      have hp : (2:ℕ) ^ (bitLenSmall fuel (n / 2) + 1) = 2 * 2 ^ bitLenSmall fuel (n / 2) := by
        ring
      omega

theorem bitLenAux_spec : ∀ (fuel n : Nat), n < 2 ^ (64 * fuel) → 1 ≤ n →
    n < 2 ^ bitLenAux fuel n ∧ 2 ^ bitLenAux fuel n ≤ 2 * n
  | 0, n, hf, hn => by simp at hf; omega
  | fuel + 1, n, hf, hn => by
    rw [bitLenAux]
    by_cases hs : n < 2 ^ 64
    · rw [if_pos hs]
      exact bitLenSmall_spec 64 n hs hn
    · rw [if_neg hs]
      have hQ : (0:ℕ) < 2 ^ 64 := by positivity
      have h2 : 1 ≤ n / 2 ^ 64 := (Nat.one_le_div_iff hQ).2 (le_of_not_lt hs)
      have hfu : n / 2 ^ 64 < 2 ^ (64 * fuel) := by
        rw [Nat.div_lt_iff_lt_mul hQ, ← pow_add]
        calc n < 2 ^ (64 * (fuel + 1)) := hf
        _ = 2 ^ (64 * fuel + 64) := by ring_nf
      obtain ⟨ih1, ih2⟩ := bitLenAux_spec fuel (n / 2 ^ 64) hfu h2
      have hmod := Nat.div_add_mod n (2 ^ 64)
      have hmlt : n % 2 ^ 64 < 2 ^ 64 := Nat.mod_lt _ hQ
      set b := bitLenAux fuel (n / 2 ^ 64) with hb
      have hpow : (2:ℕ) ^ (b + 64) = 2 ^ b * 2 ^ 64 := by rw [pow_add]
      constructor
      · have e1 : n / 2 ^ 64 + 1 ≤ 2 ^ b := ih1
        have e2 : 2 ^ 64 * (n / 2 ^ 64 + 1) ≤ 2 ^ 64 * 2 ^ b :=
          Nat.mul_le_mul_left _ e1
        calc n < 2 ^ 64 * (n / 2 ^ 64 + 1) := by omega
        _ ≤ 2 ^ 64 * 2 ^ b := e2
        _ = 2 ^ (b + 64) := by rw [hpow]; ring
      · have e3 : 2 ^ b * 2 ^ 64 ≤ 2 * (n / 2 ^ 64) * 2 ^ 64 :=
          Nat.mul_le_mul_right _ ih2
      
        calc 2 ^ (b + 64) = 2 ^ b * 2 ^ 64 := hpow
        _ ≤ 2 * (n / 2 ^ 64) * 2 ^ 64 := e3
        _ = 2 * (2 ^ 64 * (n / 2 ^ 64)) := by ring
        _ ≤ 2 * n := by omega

theorem bitLen_spec (n : Nat) (h : 1 ≤ n) :
    n < 2 ^ bitLen n ∧ 2 ^ bitLen n ≤ 2 * n := by
  refine bitLenAux_spec n n ?_ h
  calc n < 2 ^ n := Nat.lt_two_pow n
  _ ≤ 2 ^ (64 * n) := Nat.pow_le_pow_right (by norm_num) (by omega)

theorem rneNat_le (N d : Nat) : rneNat N d ≤ N / d + 1 := by
  simp only [rneNat]
  split
  · omega
  · split
    · omega
    · split <;> omega

theorem rneNat_exact (N d : Nat) (hd : 0 < d) (hdvd : d ∣ N) : rneNat N d = N / d := by
  simp only [rneNat]
  have h0 : N % d = 0 := Nat.mod_eq_zero_of_dvd hdvd
  rw [h0, if_pos (by omega)]

theorem rneNat_err (N d : Nat) (hd : 0 < d) :
    |((rneNat N d : ℕ) : ℚ) - (N : ℚ) / (d : ℚ)| ≤ 1 / 2 := by
  have hmod := Nat.div_add_mod N d
  have hrem : N % d < d := Nat.mod_lt _ hd
  have hdQ : (0 : ℚ) < (d : ℚ) := by exact_mod_cast hd
  have hx : (N : ℚ) / (d : ℚ) = ((N / d : ℕ) : ℚ) + ((N % d : ℕ) : ℚ) / (d : ℚ) := by
    field_simp
    exact_mod_cast (Nat.div_add_mod' N d).symm
  have hr0 : (0 : ℚ) ≤ ((N % d : ℕ) : ℚ) / (d : ℚ) := by positivity
  have hr1 : ((N % d : ℕ) : ℚ) / (d : ℚ) < 1 := by
    rw [div_lt_one hdQ]; exact_mod_cast hrem
  simp only [rneNat]
  split
  · rename_i hlt
    have h2 : ((N % d : ℕ) : ℚ) / (d : ℚ) < 1 / 2 := by
      rw [div_lt_div_iff₀ hdQ (by norm_num)]
      exact_mod_cast (by omega : (N % d) * 2 < 1 * d)
    rw [hx, abs_le]
    constructor <;> linarith
  · split
    · rename_i hnlt hgt
      have h2 : 1 / 2 < ((N % d : ℕ) : ℚ) / (d : ℚ) := by
        rw [div_lt_div_iff₀ (by norm_num) hdQ]
        exact_mod_cast (by omega : 1 * d < (N % d) * 2)
      rw [hx, abs_le]
      push_cast
      constructor <;> linarith
    · rename_i hnlt hngt
      have heq : 2 * (N % d) = d := by omega
      have h2 : ((N % d : ℕ) : ℚ) / (d : ℚ) = 1 / 2 := by
        rw [div_eq_div_iff hdQ.ne' (by norm_num : (2:ℚ) ≠ 0)]
        exact_mod_cast (by omega : (N % d) * 2 = 1 * d)
      split
      · rw [hx, abs_le]
        constructor <;> linarith
      · rw [hx, abs_le]
        push_cast
        constructor <;> linarith

theorem cast_pow2 (k : Nat) : ((pow2 k : ℕ) : ℚ) = (2 : ℚ) ^ (k : ℤ) := by
  rw [pow2_eq]
  push_cast
  rw [← zpow_natCast]

theorem pow2le_iff (d n : Nat) (c : Int) (hd : 0 < d) :
    pow2le d n c = true ↔ (2 : ℚ) ^ c ≤ (n : ℚ) / (d : ℚ) := by
  have hdQ : (0 : ℚ) < (d : ℚ) := by exact_mod_cast hd
  rw [pow2le]
  split
  · rename_i hc
    rw [decide_eq_true_eq, le_div_iff₀ hdQ]
    have h2c : (2 : ℚ) ^ c = ((pow2 c.toNat : ℕ) : ℚ) := by
      rw [cast_pow2, Int.toNat_of_nonneg hc]
    rw [h2c]
    constructor
    · intro h
      have : ((d * pow2 c.toNat : ℕ) : ℚ) ≤ ((n : ℕ) : ℚ) := by exact_mod_cast h
      push_cast at this
      linarith
    · intro h
      have : ((pow2 c.toNat * d : ℕ) : ℚ) ≤ ((n : ℕ) : ℚ) := by push_cast; linarith
      have hN : pow2 c.toNat * d ≤ n := by exact_mod_cast this
      rwa [mul_comm] at hN
  · rename_i hc
    rw [decide_eq_true_eq]
    have hcneg : c < 0 := by omega
    have h2c : (2 : ℚ) ^ c = 1 / ((pow2 (-c).toNat : ℕ) : ℚ) := by
      rw [cast_pow2, Int.toNat_of_nonneg (by omega : (0:ℤ) ≤ -c)]
      rw [one_div, ← zpow_neg, neg_neg]
    have hPpos : (0 : ℚ) < ((pow2 (-c).toNat : ℕ) : ℚ) := by exact_mod_cast pow2_pos _
    rw [h2c, div_le_div_iff₀ hPpos hdQ]
    constructor
    · intro h
      have hN : d ≤ n * pow2 (-c).toNat := by exact_mod_cast h
      have : ((d : ℕ) : ℚ) ≤ ((n * pow2 (-c).toNat : ℕ) : ℚ) := by exact_mod_cast hN
      push_cast at this
      linarith
    · intro h
      have : ((d : ℕ) : ℚ) ≤ ((n * pow2 (-c).toNat : ℕ) : ℚ) := by push_cast; linarith
      exact_mod_cast this

theorem zpow2_add (z w : ℤ) : (2 : ℚ) ^ (z + w) = 2 ^ z * 2 ^ w :=
  zpow_add₀ (by norm_num) z w

theorem zpow2_sub (z w : ℤ) : (2 : ℚ) ^ (z - w) = 2 ^ z / 2 ^ w :=
  zpow_sub₀ (by norm_num) z w

theorem ratExp2_spec (n d : Nat) (hn : 1 ≤ n) (hd : 1 ≤ d) :
    (2 : ℚ) ^ ratExp2 n d ≤ (n : ℚ) / (d : ℚ) ∧
      (n : ℚ) / (d : ℚ) < (2 : ℚ) ^ (ratExp2 n d + 1) := by
  simp only [ratExp2]
  obtain ⟨hn1, hn2⟩ := bitLen_spec n hn
  obtain ⟨hd1, hd2⟩ := bitLen_spec d hd
  set a := bitLen n with ha
  set b := bitLen d with hb
  have hdQ : (0 : ℚ) < (d : ℚ) := by exact_mod_cast hd
  have hnQ : (0 : ℚ) < (n : ℚ) := by exact_mod_cast hn
  have hnQ1 : (n : ℚ) < (2 : ℚ) ^ (a : ℤ) := by
    rw [← cast_pow2 a, pow2_eq]; exact_mod_cast hn1
  have hnQ2 : (2 : ℚ) ^ (a : ℤ) ≤ 2 * n := by
    rw [← cast_pow2 a, pow2_eq]; exact_mod_cast hn2
  have hdQ1 : (d : ℚ) < (2 : ℚ) ^ (b : ℤ) := by
    rw [← cast_pow2 b, pow2_eq]; exact_mod_cast hd1
  have hdQ2 : (2 : ℚ) ^ (b : ℤ) ≤ 2 * d := by
    rw [← cast_pow2 b, pow2_eq]; exact_mod_cast hd2
  have h2pos : ∀ z : ℤ, (0 : ℚ) < (2 : ℚ) ^ z := fun z => zpow_pos (by norm_num) z
  split
  · rename_i hle
    have hlow := (pow2le_iff d n ((a : ℤ) - b) (by omega)).1 hle
    refine ⟨hlow, ?_⟩
    rw [div_lt_iff₀ hdQ]
    have key : (2 : ℚ) ^ (a : ℤ) ≤ (2 : ℚ) ^ ((a : ℤ) - b + 1) * d := by
      have e1 : (2 : ℚ) ^ ((a : ℤ) - b + 1) * d = (2 : ℚ) ^ (a : ℤ) * (2 * d) / (2 : ℚ) ^ (b : ℤ) := by
        simp only [zpow2_add, zpow2_sub, zpow_one]
        ring
      rw [e1, le_div_iff₀ (h2pos b)]
      calc (2 : ℚ) ^ (a : ℤ) * (2 : ℚ) ^ (b : ℤ)
          ≤ (2 : ℚ) ^ (a : ℤ) * (2 * d) :=
            mul_le_mul_of_nonneg_left hdQ2 (le_of_lt (h2pos a))
      _ ≤ (2 : ℚ) ^ (a : ℤ) * (2 * d) := le_refl _
    linarith
  · rename_i hnle
    have hupp : ¬ (2 : ℚ) ^ ((a : ℤ) - b) ≤ (n : ℚ) / (d : ℚ) := by
      intro hcon
      exact hnle ((pow2le_iff d n ((a : ℤ) - b) (by omega)).2 hcon)
    push_neg at hupp
    have harr : (a : ℤ) - b - 1 + 1 = (a : ℤ) - b := by ring
    refine ⟨?_, by rw [harr]; exact hupp⟩
    rw [le_div_iff₀ hdQ]
    have ha1 : (2 : ℚ) ^ ((a : ℤ) - 1) ≤ n := by
      have e2 : (2 : ℚ) ^ ((a : ℤ) - 1) = (2 : ℚ) ^ (a : ℤ) / 2 := by
        simp only [zpow2_sub, zpow_one]
      rw [e2, div_le_iff₀ (by norm_num : (0:ℚ) < 2)]
      linarith
    have key : (2 : ℚ) ^ ((a : ℤ) - b - 1) * d < (2 : ℚ) ^ ((a : ℤ) - 1) := by
      have e1 : (2 : ℚ) ^ ((a : ℤ) - b - 1) * d = (2 : ℚ) ^ ((a : ℤ) - 1) * d / (2 : ℚ) ^ (b : ℤ) := by
        simp only [zpow2_sub, zpow_one]
        ring
      rw [e1, div_lt_iff₀ (h2pos b)]
      exact mul_lt_mul_of_pos_left hdQ1 (h2pos _)
    linarith

theorem pyDivFloat_eq (n d : Nat) (hn : 1 ≤ n) (hd : 1 ≤ d)
    (hn53 : n < 2 ^ 53) (hd53 : d < 2 ^ 53) :
    pyDivFloat n d = .ok (n / d) := by
  obtain ⟨hlow, hupp⟩ := ratExp2_spec n d hn hd
  set e := ratExp2 n d with he
  have hdQ : (0 : ℚ) < (d : ℚ) := by exact_mod_cast hd
  have hnQ : (0 : ℚ) < (n : ℚ) := by exact_mod_cast hn
  have h2pos : ∀ z : ℤ, (0 : ℚ) < (2 : ℚ) ^ z := fun z => zpow_pos (by norm_num) z
  have hq_le_n : (n : ℚ) / (d : ℚ) ≤ (n : ℚ) := by
    apply div_le_self (le_of_lt hnQ)
    exact_mod_cast hd
  have h53Q : (2 : ℚ) ^ (53 : ℤ) = ((2 ^ 53 : ℕ) : ℚ) := by
    push_cast
    norm_num
  have he52 : e ≤ 52 := by
    by_contra hcon
    push_neg at hcon
    have h1 : (2 : ℚ) ^ (53 : ℤ) ≤ (2 : ℚ) ^ e := by
      apply zpow_le_zpow_right₀ (by norm_num)
      omega
    have h2 : (n : ℚ) < (2 : ℚ) ^ (53 : ℤ) := by
      rw [h53Q]; exact_mod_cast hn53
    linarith
  have hem : -53 ≤ e := by
    by_contra hcon
    push_neg at hcon
    have h1 : (1 : ℚ) / (d : ℚ) ≤ (n : ℚ) / (d : ℚ) := by
      gcongr
      exact_mod_cast hn
    have h2 : (2 : ℚ) ^ (-53 : ℤ) < 1 / (d : ℚ) := by
      rw [show (2 : ℚ) ^ (-53 : ℤ) = 1 / (2 : ℚ) ^ (53 : ℤ) from by
        rw [zpow_neg, one_div]]
      rw [div_lt_div_iff₀ (h2pos 53) hdQ, one_mul, one_mul, h53Q]
      exact_mod_cast hd53
    have h3 : (2 : ℚ) ^ (e + 1) ≤ (2 : ℚ) ^ (-53 : ℤ) := by
      apply zpow_le_zpow_right₀ (by norm_num)
      omega
    have hcyc : (n : ℚ) / (d : ℚ) < (n : ℚ) / (d : ℚ) := by
      calc (n : ℚ) / (d : ℚ) < (2 : ℚ) ^ (e + 1) := hupp
      _ ≤ (2 : ℚ) ^ (-53 : ℤ) := h3
      _ < 1 / (d : ℚ) := h2
      _ ≤ (n : ℚ) / (d : ℚ) := h1
    exact absurd hcyc (lt_irrefl _)
  have ht : max (e - 52) (-1074 : ℤ) = e - 52 := max_eq_left (by omega)
  simp only [pyDivFloat]
  rw [← he, ht, if_pos (by omega : e - 52 ≤ 0)]
  set ν := (-(e - 52)).toNat with hν
  have hνe : (ν : ℤ) = 52 - e := by
    rw [hν, Int.toNat_of_nonneg (by omega)]
    ring
  set N := n * pow2 ν with hN
  set m := rneNat N d with hm
  have hm_small : m < pow2 (1024 + ν) := by
    have h1 : m ≤ N / d + 1 := rneNat_le N d
    have h2 : N / d ≤ N := Nat.div_le_self N d
    have h3 : N < 2 ^ 53 * pow2 ν := by
      rw [hN]
      exact (Nat.mul_lt_mul_right (pow2_pos ν)).mpr hn53
    have h4 : 2 ^ 53 * pow2 ν + 1 ≤ pow2 (1024 + ν) := by
      have hp1 : (1 : ℕ) ≤ pow2 ν := pow2_pos ν
      have h5 : pow2 (1024 + ν) = 2 ^ 1024 * pow2 ν := by
        rw [pow2_eq, pow2_eq, pow_add]
      rw [h5]
      have h53 : (2 : ℕ) ^ 53 + 1 ≤ 2 ^ 1024 := by norm_num
      calc 2 ^ 53 * pow2 ν + 1 ≤ 2 ^ 53 * pow2 ν + pow2 ν := by omega
      _ = (2 ^ 53 + 1) * pow2 ν := by ring
      _ ≤ 2 ^ 1024 * pow2 ν := Nat.mul_le_mul_right _ h53
    omega
  rw [if_neg (not_le.mpr hm_small)]
  congr 1
  by_cases hdvd : d ∣ n
  · obtain ⟨k, hk⟩ := hdvd
    have hdvd2 : d ∣ N := ⟨k * pow2 ν, by rw [hN, hk]; ring⟩
    rw [hm, rneNat_exact N d hd hdvd2, hN, hk, mul_assoc,
        Nat.mul_div_cancel_left _ hd, Nat.mul_div_cancel _ (pow2_pos ν),
        Nat.mul_div_cancel_left k hd]
  · set k := n / d with hk
    have hmodeq : d * k + n % d = n := by rw [hk]; exact Nat.div_add_mod n d
    have hr1 : 1 ≤ n % d := by
      rcases Nat.eq_zero_or_pos (n % d) with h0 | hpos
      · exact absurd (Nat.dvd_of_mod_eq_zero h0) hdvd
      · exact hpos
    have hrd : n % d < d := Nat.mod_lt n hd
    have hd2ν : d < 2 ^ (ν + 1) := by
      rcases le_or_lt e 0 with he0 | he0
      · have h53 : 53 ≤ ν + 1 := by omega
        calc d < 2 ^ 53 := hd53
        _ ≤ 2 ^ (ν + 1) := Nat.pow_le_pow_right (by norm_num) h53
      · have hlow2 := hlow
        have het : (e.toNat : ℤ) = e := Int.toNat_of_nonneg (by omega)
        rw [le_div_iff₀ hdQ] at hlow2
        have h2 : (2 : ℚ) ^ e = ((2 ^ e.toNat : ℕ) : ℚ) := by
          push_cast
          rw [← zpow_natCast, het]
        rw [h2] at hlow2
        have h1 : ((2 ^ e.toNat * d : ℕ) : ℚ) ≤ (n : ℚ) := by
          push_cast
          push_cast at hlow2
          linarith
        have h3 : 2 ^ e.toNat * d ≤ n := by exact_mod_cast h1
        have h4 : ν + 1 + e.toNat = 53 := by omega
        have h5 : 2 ^ (ν + 1) * 2 ^ e.toNat = 2 ^ 53 := by rw [← pow_add, h4]
        by_contra hcon
        push_neg at hcon
        have h6 : 2 ^ (ν + 1) * 2 ^ e.toNat ≤ d * 2 ^ e.toNat :=
          Nat.mul_le_mul_right _ hcon
        have h7 : d * 2 ^ e.toNat = 2 ^ e.toNat * d := by ring
        omega
    have herr := rneNat_err N d hd
    rw [← hm, abs_le] at herr
    obtain ⟨herr1, herr2⟩ := herr
    have hPpos : (0 : ℚ) < ((pow2 ν : ℕ) : ℚ) := by exact_mod_cast pow2_pos ν
    have hdne : (d : ℚ) ≠ 0 := ne_of_gt hdQ
    have h8 : (n : ℚ) = (d : ℚ) * (k : ℚ) + ((n % d : ℕ) : ℚ) := by
      exact_mod_cast (by omega : n = d * k + n % d)
    have hhalf : (1 : ℚ) / 2 < ((pow2 ν : ℕ) : ℚ) / (d : ℚ) := by
      rw [div_lt_div_iff₀ (by norm_num) hdQ]
      have h9 : d < pow2 ν * 2 := by
        have h10 : (2 : ℕ) ^ (ν + 1) = pow2 ν * 2 := by rw [pow2_eq]; ring
        omega
      exact_mod_cast (by omega : 1 * d < pow2 ν * 2)
    have hρlo : (1 : ℚ) / (d : ℚ) ≤ ((n % d : ℕ) : ℚ) / (d : ℚ) := by
      gcongr
      exact_mod_cast hr1
    have hρhi : ((n % d : ℕ) : ℚ) / (d : ℚ) ≤ 1 - 1 / (d : ℚ) := by
      rw [div_le_iff₀ hdQ]
      have h6 : ((n % d : ℕ) : ℚ) + 1 ≤ (d : ℚ) := by
        exact_mod_cast (by omega : n % d + 1 ≤ d)
      have h7 : (1 - 1 / (d : ℚ)) * d = d - 1 := by field_simp
      rw [h7]
      linarith
    have t2 : (1 : ℚ) / d * ((pow2 ν : ℕ) : ℚ) = ((pow2 ν : ℕ) : ℚ) / d := by ring
    have t3 : (N : ℚ) / (d : ℚ) = (k : ℚ) * ((pow2 ν : ℕ) : ℚ)
        + ((n % d : ℕ) : ℚ) / d * ((pow2 ν : ℕ) : ℚ) := by
      rw [div_eq_iff hdne, add_mul]
      have h9 : ((n % d : ℕ) : ℚ) / d * ((pow2 ν : ℕ) : ℚ) * (d : ℚ)
          = ((n % d : ℕ) : ℚ) * ((pow2 ν : ℕ) : ℚ) := by
        field_simp
      rw [h9, hN]
      push_cast
      rw [h8]
      ring
    have t4 : (1 - 1 / (d : ℚ)) * ((pow2 ν : ℕ) : ℚ)
        = ((pow2 ν : ℕ) : ℚ) - ((pow2 ν : ℕ) : ℚ) / d := by ring
    have hm1 : (k : ℚ) * ((pow2 ν : ℕ) : ℚ) < (m : ℚ) := by
      have t1 : (1 : ℚ) / d * ((pow2 ν : ℕ) : ℚ)
          ≤ ((n % d : ℕ) : ℚ) / d * ((pow2 ν : ℕ) : ℚ) :=
        mul_le_mul_of_nonneg_right hρlo (le_of_lt hPpos)
      linarith [herr1, t1, t2, t3, hhalf]
    have hm2 : (m : ℚ) < ((k : ℚ) + 1) * ((pow2 ν : ℕ) : ℚ) := by
      have t1 : ((n % d : ℕ) : ℚ) / d * ((pow2 ν : ℕ) : ℚ)
          ≤ (1 - 1 / (d : ℚ)) * ((pow2 ν : ℕ) : ℚ) :=
        mul_le_mul_of_nonneg_right hρhi (le_of_lt hPpos)
      nlinarith [herr2, t1, t3, t4, hhalf]
    have hn1 : k * pow2 ν < m := by exact_mod_cast hm1
    have hn2 : m < (k + 1) * pow2 ν := by exact_mod_cast hm2
    exact Nat.div_eq_of_lt_le (le_of_lt hn1) hn2

theorem tdiv_eq_sign_natAbs (l r : Int) :
    Int.tdiv l r =
      if (l < 0) = (r < 0) then ((l.natAbs / r.natAbs : ℕ) : ℤ)
      else -((l.natAbs / r.natAbs : ℕ) : ℤ) := by
  rcases l with m | m <;> rcases r with j | j
  · rw [if_pos]
    · rfl
    · simp [Int.negSucc_lt_zero]
      constructor <;> intro h <;> omega
  · rw [if_neg]
    · rfl
    · simp [Int.negSucc_lt_zero]
  · rw [if_neg]
    · rfl
    · simp [Int.negSucc_lt_zero]
  · rw [if_pos]
    · rfl
    · simp [Int.negSucc_lt_zero]

theorem pyTrueDivInt_eq_tdiv (l r : Int) (hr : r ≠ 0)
    (hl : l.natAbs < 2 ^ 53) (hr53 : r.natAbs < 2 ^ 53) :
    pyTrueDivInt l r = .ok (Int.tdiv l r) := by
  rw [pyTrueDivInt]
  by_cases hl0 : l = 0
  · rw [if_pos hl0, hl0]
    rw [Int.zero_tdiv]
  · rw [if_neg hl0]
    have hn : 1 ≤ l.natAbs := Int.natAbs_pos.mpr hl0
    have hd : 1 ≤ r.natAbs := Int.natAbs_pos.mpr hr
    rw [pyDivFloat_eq l.natAbs r.natAbs hn hd hl hr53]
    rw [tdiv_eq_sign_natAbs l r]

/-! The claim theorems. -/

/-- Claim C1.  The claim states that a BinaryOp with operator / or %
whose folded right operand is the integer literal 0 is not evaluated and
raises no uncaught fault, the node staying in place while the pass
completes.  The code does the opposite: visit_BinaryOpNode calls
eval_binary unconditionally whenever both folded operands are integer
literals, the division case evaluates int(left / right), and a zero
divisor raises ZeroDivisionError, which no caller catches; the whole
pass aborts.  This theorem evaluates the embedded code at the failing
input, the program `int x = 5 / 0;` and the bare 5 / 0 and 5 % 0 nodes:
the result is the ZeroDivisionError outcome, not a folded tree. -/
theorem zero_divisor_fold_raises :
    ConstantFolder.run true divByZeroProgram = .error .zeroDivisionError
    ∧ ConstantFolder.visit true (.BinaryOpNode "/" (.IntLiteralNode 5) (.IntLiteralNode 0)) []
        = .error .zeroDivisionError
    ∧ ConstantFolder.visit true (.BinaryOpNode "%" (.IntLiteralNode 5) (.IntLiteralNode 0)) []
        = .error .zeroDivisionError :=
  ⟨by decide, by decide, by decide⟩

/-- Claim C2.  The claim states that folding an Increment or Decrement
node whose operand is an identifier removes that binding, so in
`int x = 5; x++; int y = x;` the initializer of y is not folded to a
literal.  The code misses the invalidation: visit_IncrementNode folds
the operand first, which replaces the bound identifier x by the literal
5, so the subsequent isinstance(IdentifierNode) test fails and the
binding for x survives.  This theorem evaluates the embedded code at
that very program: the folded tree has the initializer of y folded to
the integer literal 5, and the final environment still binds both x and
y. -/
theorem increment_invalidation_missed :
    ConstantFolder.visit true incrementProgram []
      = .ok (.ProgramNode (.MainFunctionNode (.cons
          (.VarDeclNode false "int" 0 "x" (.some (.IntLiteralNode 5)))
          (.cons (.IncrementNode (.IntLiteralNode 5) false)
          (.cons (.VarDeclNode false "int" 0 "y" (.some (.IntLiteralNode 5)))
          .nil)))),
         [("y", .IntLiteralNode 5), ("x", .IntLiteralNode 5)]) := by decide

/-- Claim C3, counterexample.  The claim states that a bound identifier
read is replaced by a copy of the bound literal node, so the folded tree
is sharing-free.  On the identity-carrying model, folding the program
`int x = 5; int y = x;` (all six input nodes having distinct
identities, allocation counter 100 so any fresh construction would be
visible) returns a tree in which the object with identity 4 occupies
both initializer slots, and the environment aliases that same object:
the identity multiset of the output is not duplicate-free, refuting the
claim at a concrete input. -/
theorem identifier_replacement_aliases_bound_node :
    ConstantFolder.visitAlloc true sharingProgram 100 []
      = .ok (sharingProgramFolded, 100,
          [("y", .IntLiteralNode 4 5), ("x", .IntLiteralNode 4 5)])
    ∧ (PyNode.ids sharingProgram).Nodup
    ∧ ¬ (PyNode.ids sharingProgramFolded).Nodup :=
  ⟨by decide, by decide, by decide⟩

/-- Claim C3, as amended.  visit_IdentifierNode returns the bound
literal node itself — no copy is constructed and no fresh identity is
allocated — so the environment and the tree come to alias one node
object, and a literal node can occupy several tree positions. -/
theorem identifier_read_returns_bound_node_itself
    (i : Nat) (name : String) (ctr : Nat) (known : PyEnv) (n : PyNode)
    (h : pyEnvLookup known name = Option.some n) :
    ConstantFolder.visitAlloc true (.IdentifierNode i name) ctr known
      = .ok (n, ctr, known) := by
  simp [ConstantFolder.visitAlloc, h]

/-- Witness for the amended claim C3 at a concrete input. -/
theorem identifier_read_returns_bound_node_itself_witness :
    ConstantFolder.visitAlloc true (.IdentifierNode 7 "x") 0 [("x", .IntLiteralNode 3 5)]
      = .ok (.IntLiteralNode 3 5, 0, [("x", .IntLiteralNode 3 5)]) :=
  identifier_read_returns_bound_node_itself 7 "x" 0 [("x", .IntLiteralNode 3 5)]
    (.IntLiteralNode 3 5) (by decide)

/-- Claim C4, counterexample.  The claim states that folding a
division of integer literals always yields the truncated exact
quotient.  The source computes int(left / right), and left / right is a
binary64 float: folding (2 ^ 53 + 1) / 1 rounds the quotient to the
even neighbour 2 ^ 53 — not the exact truncated quotient 2 ^ 53 + 1 —
and folding 2 ^ 1100 / 1 raises an uncaught OverflowError because the
quotient exceeds the float range, refuting the claim at concrete
inputs. -/
theorem division_fold_rounds_through_float :
    ConstantFolder.visit true
        (.BinaryOpNode "/" (.IntLiteralNode (2 ^ 53 + 1)) (.IntLiteralNode 1)) []
      = .ok (.IntLiteralNode (2 ^ 53), [])
    ∧ Int.tdiv (2 ^ 53 + 1) 1 = 2 ^ 53 + 1
    ∧ ConstantFolder.visit true
        (.BinaryOpNode "/" (.IntLiteralNode ((pow2 1100 : Nat) : Int)) (.IntLiteralNode 1)) []
      = .error .overflowError :=
  ⟨by decide, by decide, by decide⟩

/-- Claim C4, as amended.  For integer literals l and r with r nonzero
and both magnitudes below 2 ^ 53 (so the binary64 quotient the source
routes through is exact up to rounding that truncation undoes), folding
BinaryOp with operator / yields the integer literal holding the
truncated-toward-zero quotient Int.tdiv l r; the magnitude identity
confirms truncation (the magnitude of the quotient is the Nat quotient
of the magnitudes, which floor division violates for negative results),
and the examples 7 / 2 and -7 / 2 evaluate to 3 and -3 as the spec
requires. -/
theorem division_fold_truncates_toward_zero (l r : Int) (env : Env) (h : r ≠ 0)
    (hl : l.natAbs < 2 ^ 53) (hr : r.natAbs < 2 ^ 53) :
    ConstantFolder.visit true (.BinaryOpNode "/" (.IntLiteralNode l) (.IntLiteralNode r)) env
      = .ok (.IntLiteralNode (Int.tdiv l r), env)
    ∧ (Int.tdiv l r).natAbs = l.natAbs / r.natAbs
    ∧ Int.tdiv 7 2 = 3 ∧ Int.tdiv (-7) 2 = -3 := by
  refine ⟨?_, Int.natAbs_tdiv l r, by decide, by decide⟩
  simp [ConstantFolder.visit, ConstantFolder.eval_binary, h,
    pyTrueDivInt_eq_tdiv l r h hl hr]

/-- Witness for the amended claim C4 at the concrete input -7 / 2. -/
theorem division_fold_truncates_toward_zero_witness :
    ((2 : Int) ≠ 0)
    ∧ (Int.natAbs (-7) < 2 ^ 53)
    ∧ (Int.natAbs 2 < 2 ^ 53)
    ∧ (ConstantFolder.visit true
        (.BinaryOpNode "/" (.IntLiteralNode (-7)) (.IntLiteralNode 2)) []
        = .ok (.IntLiteralNode (Int.tdiv (-7) 2), [])) :=
  ⟨by decide, by decide, by decide,
    (division_fold_truncates_toward_zero (-7) 2 [] (by decide) (by decide) (by decide)).1⟩

/-- Claim C5, counterexample.  The claim states that a UnaryOp or
BinaryOp all of whose folded operands are literals — integer, float, or
character — is replaced by the literal result of the evaluation table.
The code only folds when every operand is an IntLiteralNode: on the
BinaryOp adding two float literals, both operands pass the literal
isinstance test of the folder, yet the node is returned unchanged and
is not a literal, refuting the claim at a concrete input. -/
theorem float_literal_operands_not_folded :
    ConstantFolder.visit true floatAddNode [] = .ok (floatAddNode, [])
    ∧ isLiteralNode (.FloatLiteralNode 1) = true
    ∧ isLiteralNode (.FloatLiteralNode 2) = true
    ∧ isLiteralNode floatAddNode = false :=
  ⟨by decide, by decide, by decide, by decide⟩

/-- Claim C5, as amended.  For every BinaryOp and UnaryOp, after the
operands are folded: if every folded operand is an integer literal, the
node is replaced by the integer literal produced by the evaluation
table (the pass aborting with the raised exception when the table
faults, i.e. on a zero divisor, a negative shift count or an unknown
operator); otherwise — including when an operand is a float or char
literal — the operator node is kept with its already-folded
children. -/
theorem operator_fold_requires_int_literal_operands :
    (∀ (op : String) (a b : ASTNode) (env env1 env2 : Env) (a2 b2 : ASTNode),
      ConstantFolder.visit true a env = .ok (a2, env1) →
      ConstantFolder.visit true b env1 = .ok (b2, env2) →
      ConstantFolder.visit true (.BinaryOpNode op a b) env =
        match a2, b2 with
        | .IntLiteralNode x, .IntLiteralNode y =>
          (match ConstantFolder.eval_binary op x y with
           | .error e => .error e
           | .ok v => .ok (.IntLiteralNode v, env2))
        | _, _ => .ok (.BinaryOpNode op a2 b2, env2))
    ∧ (∀ (op : String) (a : ASTNode) (env env1 : Env) (a2 : ASTNode),
      ConstantFolder.visit true a env = .ok (a2, env1) →
      ConstantFolder.visit true (.UnaryOpNode op a) env =
        match a2 with
        | .IntLiteralNode x =>
          (match ConstantFolder.eval_unary op x with
           | .error e => .error e
           | .ok v => .ok (.IntLiteralNode v, env1))
        | _ => .ok (.UnaryOpNode op a2, env1)) := by
  constructor
  · intro op a b env env1 env2 a2 b2 ha hb
    simp only [ConstantFolder.visit, Bool.not_true, Bool.false_eq_true, if_false, ha, hb]
  · intro op a env env1 a2 ha
    simp only [ConstantFolder.visit, Bool.not_true, Bool.false_eq_true, if_false, ha]

/-- Witness for the amended claim C5 at the concrete input 6 * 7. -/
theorem operator_fold_requires_int_literal_operands_witness :
    ConstantFolder.visit true (.BinaryOpNode "*" (.IntLiteralNode 6) (.IntLiteralNode 7)) []
      = .ok (.IntLiteralNode 42, ([] : Env)) :=
  operator_fold_requires_int_literal_operands.1 "*" (.IntLiteralNode 6) (.IntLiteralNode 7)
    [] [] [] (.IntLiteralNode 6) (.IntLiteralNode 7) rfl rfl

/-- Claim C6.  Statements are folded in program order with each
statement threading its environment into the next (first conjunct, the
sequencing equation of the statement loop); a declaration with a
literal initializer binds its name whether or not it is const (second
conjunct, with the const flag universally quantified); and the two
spec programs behave as claimed: `const int x = 5; int y = x + 2;`
folds the initializer of y to the literal 7, and
`int x = 5; x = 10; int y = x;` folds it to the literal 10, the later
binding winning. -/
theorem statements_in_program_order :
    (∀ (enabled : Bool) (s : ASTNode) (rest : StmtList) (env : Env),
      ConstantFolder.visitStatements enabled (.cons s rest) env =
        match ConstantFolder.visit enabled s env with
        | .error e => .error e
        | .ok (s2, env2) =>
          match ConstantFolder.visitStatements enabled rest env2 with
          | .error e => .error e
          | .ok (rest2, env3) => .ok (.cons s2 rest2, env3))
    ∧ (∀ (c : Bool) (ty : String) (pd : Nat) (name : String) (v : Int) (env : Env),
      ConstantFolder.visit true (.VarDeclNode c ty pd name (.some (.IntLiteralNode v))) env
        = .ok (.VarDeclNode c ty pd name (.some (.IntLiteralNode v)),
               envInsert env name (.IntLiteralNode v)))
    ∧ ConstantFolder.run true propagationProgram = .ok (.ProgramNode (.MainFunctionNode (.cons
        (.VarDeclNode true "int" 0 "x" (.some (.IntLiteralNode 5)))
        (.cons (.VarDeclNode false "int" 0 "y" (.some (.IntLiteralNode 7))) .nil))))
    ∧ ConstantFolder.run true reassignProgram = .ok (.ProgramNode (.MainFunctionNode (.cons
        (.VarDeclNode false "int" 0 "x" (.some (.IntLiteralNode 5)))
        (.cons (.AssignNode (.IdentifierNode "x") (.IntLiteralNode 10))
        (.cons (.VarDeclNode false "int" 0 "y" (.some (.IntLiteralNode 10))) .nil))))) := by
  refine ⟨fun enabled s rest env => rfl, fun c ty pd name v env => ?_, by decide, by decide⟩
  simp [ConstantFolder.visit, isLiteralNode]

/-- Claim C7.  Folding an Assign whose target is not a plain Identifier
(the value being an expression in the sense of the data model, and the
environment satisfying the literal invariant the folder maintains)
leaves the known-value environment unchanged for every variable name:
no binding is added, updated, or removed. -/
theorem assign_nonidentifier_target_preserves_env
    (target value : ASTNode) (env : Env) (res : ASTNode × Env)
    (hT : isIdentifierNode target = false)
    (hE : isExprNode value = true) (hW : envWF env = true)
    (h : ConstantFolder.visit true (.AssignNode target value) env = .ok res) :
    ∀ name, envLookup res.2 name = envLookup env name := by
  intro name
  simp only [ConstantFolder.visit, Bool.not_true, Bool.false_eq_true, if_false] at h
  split at h
  · simp at h
  · rename_i value2 k2 heq
    obtain ⟨hk2, _⟩ := visit_expr_env value env value2 k2 hE hW heq
    split at h
    · rename_i tgt nm
      simp [isIdentifierNode] at hT
    · injection h with h1
      rw [← h1]
      simp [hk2]

/-- Witness for claim C7: an assignment through a dereference leaves
the binding of a untouched. -/
theorem assign_nonidentifier_target_preserves_env_witness :
    envLookup (ASTNode.AssignNode (.DereferenceNode (.IdentifierNode "p")) (.IntLiteralNode 3),
        ([("a", ASTNode.IntLiteralNode 1)] : Env)).2 "a"
      = envLookup [("a", ASTNode.IntLiteralNode 1)] "a" :=
  assign_nonidentifier_target_preserves_env
    (.DereferenceNode (.IdentifierNode "p")) (.IntLiteralNode 3)
    [("a", .IntLiteralNode 1)]
    (.AssignNode (.DereferenceNode (.IdentifierNode "p")) (.IntLiteralNode 3),
      [("a", .IntLiteralNode 1)])
    (by decide) (by decide) (by decide) (by decide) "a"

/-- Claim C8.  Folding is idempotent: when a whole pass (fresh, empty
environment, as constructed in the entry point) succeeds on a tree, a
second fresh pass on its output returns that output unchanged — for
either value of the enabled flag (the disabled pass being the identity
transform). -/
theorem folding_idempotent (enabled : Bool) (ast ast2 : ASTNode)
    (h : ConstantFolder.run enabled ast = .ok ast2) :
    ConstantFolder.run enabled ast2 = .ok ast2 := by
  cases enabled with
  | false =>
    simp only [ConstantFolder.run, visit_disabled] at h ⊢
  | true =>
    simp only [ConstantFolder.run] at h ⊢
    cases hv : ConstantFolder.visit true ast [] with
    | error e => simp [hv] at h
    | ok p =>
      obtain ⟨a2, envF⟩ := p
      simp only [hv] at h
      injection h with he
      subst he
      have hrev := visit_revisit ast [] a2 envF (by decide) hv
      simp only [hrev]

/-- Witness for claim C8 at the already-folded propagation program. -/
theorem folding_idempotent_witness :
    ConstantFolder.run true (.ProgramNode (.MainFunctionNode (.cons
      (.VarDeclNode true "int" 0 "x" (.some (.IntLiteralNode 5)))
      (.cons (.VarDeclNode false "int" 0 "y" (.some (.IntLiteralNode 7))) .nil))))
    = .ok (.ProgramNode (.MainFunctionNode (.cons
      (.VarDeclNode true "int" 0 "x" (.some (.IntLiteralNode 5)))
      (.cons (.VarDeclNode false "int" 0 "y" (.some (.IntLiteralNode 7))) .nil)))) :=
  folding_idempotent true propagationProgram
    (.ProgramNode (.MainFunctionNode (.cons
      (.VarDeclNode true "int" 0 "x" (.some (.IntLiteralNode 5)))
      (.cons (.VarDeclNode false "int" 0 "y" (.some (.IntLiteralNode 7))) .nil))))
    (by decide)

/-- Claim C9.  Graph export is deterministic: the entry point resets
the line buffer and the id counter before traversing, so the document
it returns does not depend on the visitor state the call starts from —
two invocations on the same tree, whether on fresh visitors or
back-to-back on one visitor instance, return byte-identical strings
(same ids, same labels, same edge order). -/
theorem dot_export_deterministic (ast : ASTNode) (s1 s2 : DotVisitor) :
    (DotVisitor.visit ast s1).1 = (DotVisitor.visit ast s2).1
    ∧ (DotVisitor.visit ast ((DotVisitor.visit ast s1).2)).1
        = (DotVisitor.visit ast s1).1 :=
  ⟨rfl, rfl⟩

/-- Claim C10.  Folding an Assign rewrites only the value child: the
node returned by a successful fold is an AssignNode whose target slot
holds exactly the target subtree that was given — in particular an
identifier in target position is never replaced by its known literal
value, even when it is bound in the environment. -/
theorem assign_target_returned_unchanged (target value : ASTNode) (env : Env)
    (res : ASTNode × Env)
    (h : ConstantFolder.visit true (.AssignNode target value) env = .ok res) :
    assignTarget res.1 = Option.some target := by
  simp only [ConstantFolder.visit, Bool.not_true, Bool.false_eq_true, if_false] at h
  split at h
  · simp at h
  · rename_i value2 k2 heq
    split at h
    · rename_i tgt nm
      split at h <;>
      · injection h with h1
        rw [← h1]
        simp [assignTarget]
    · injection h with h1
      rw [← h1]
      simp [assignTarget]

/-- Witness for claim C10: the target x stays an identifier in the
folded assignment even though x is bound to a literal. -/
theorem assign_target_returned_unchanged_witness :
    assignTarget (ASTNode.AssignNode (.IdentifierNode "x") (.IntLiteralNode 7),
        ([("x", ASTNode.IntLiteralNode 7)] : Env)).1
      = Option.some (.IdentifierNode "x") :=
  assign_target_returned_unchanged (.IdentifierNode "x") (.IntLiteralNode 7)
    [("x", .IntLiteralNode 5)]
    (.AssignNode (.IdentifierNode "x") (.IntLiteralNode 7), [("x", .IntLiteralNode 7)])
    (by decide)
